import Mathlib

/-!
# Verification of the recipe JSON/XML validation and serialization core

This file is a shallow embedding, in Lean 4, of the core logic of
`recepies/recepie/views.py`: the schema validator `_validate_recipe_dict`,
the JSON codec (`_to_json` / `_from_json`), the XML codec
(`_to_xml` / `_from_xml`), the stored-file reader `_read_file`, and the
decode-validate-cleanup step of `upload_file`.

Modeling conventions:

* Python values that can appear in a decoded JSON/XML document are modeled by
  the inductive type `PyVal` (`None`, `bool`, `int`, `float`, `str`, `list`,
  `dict`).  A Python `dict` is modeled as an insertion-ordered association
  list; the dictionaries built by this program never carry duplicate keys.
* Python `float` is modeled as an exact rational (`Rat`).  Every Python float
  is an exact decimal rational, and `float(str(x)) == x` holds for floats, so
  the exact-decimal model reproduces all observable round-trip behavior; the
  printer `pyFloatStr` is the exact-decimal counterpart of `repr(float)`
  (fixed notation; we do not model the scientific-notation switch for very
  large/small magnitudes, nor `inf`/`nan`, nor `_` digit separators in
  `float()` input).
* Python `str.strip()` is `pyStrip` (ASCII whitespace; Python also strips a
  few more Unicode space characters, which never occur in this program's
  data).  `text.replace(",", ".")` on single-character patterns is the
  character map `mapStr commaToDot`.
* `int(x)` truncation toward zero is `pyTruncQ` / `pyToInt`.
* XML is modeled at the element-tree level (`Xml.Element`), i.e. at the
  interface `xml.etree.ElementTree` presents to this code (`fromstring` /
  `tostring` are modeled as inverse on well-formed trees; a byte input that
  is not well-formed XML is the `Option.none` input of `_from_xml`).
  An element's `text` of Python `None` is identified with `""`, which is
  observationally equal here because every read goes through `(… or "")`.
* JSON is modeled at the byte (character) level: `_to_json` is a faithful
  model of `json.dumps(obj, ensure_ascii=False, indent=2)` and `_from_json`
  a recursive-descent model of `json.loads` (strict-mode: raw control
  characters in strings are rejected; we additionally tolerate leading
  zeros in numbers and do not model lone-surrogate `\uXXXX` escapes, which
  `Char` cannot represent; neither difference is reachable from the
  properties proved here).
-/

namespace Recipes

/-! ## Characters and Python string helpers -/

/-- The double-quote character. -/
def quoteChar : Char := Char.ofNat 34

/-- The backslash character. -/
def bslashChar : Char := Char.ofNat 92

/-- Opening curly brace. -/
def lcurly : Char := Char.ofNat 123

/-- Closing curly brace. -/
def rcurly : Char := Char.ofNat 125

/-- ASCII whitespace, as recognized by Python's default `str.strip()`. -/
def isPyWs (c : Char) : Bool :=
  c == ' ' || c == '\t' || c == '\n' || c == '\r' || c == Char.ofNat 11 || c == Char.ofNat 12

/-- `str.strip()` on a character list: drop whitespace from both ends. -/
def stripChars (cs : List Char) : List Char :=
  ((cs.dropWhile isPyWs).reverse.dropWhile isPyWs).reverse

/-- Python `s.strip()`. -/
def pyStrip (s : String) : String := ⟨stripChars s.data⟩

/-- Apply a character map to a string (models single-character `str.replace`). -/
def mapStr (f : Char → Char) (s : String) : String := ⟨s.data.map f⟩

/-- The character map underlying `text.replace(",", ".")`. -/
def commaToDot (c : Char) : Char := if c == ',' then '.' else c

/-- The character map substituting `","` for `"."` (used to state the
decimal-separator tolerance property). -/
def dotToComma (c : Char) : Char := if c == '.' then ',' else c

/-! ## Decimal digits: printing and parsing natural numbers -/

/-- Is `c` an ASCII decimal digit? -/
def isDigitChar (c : Char) : Bool := '0' ≤ c && c ≤ '9'

/-- The digit character for `d < 10`. -/
def digitChar (d : Nat) : Char := Char.ofNat (48 + d)

/-- Numeric value of a digit string (most significant digit first). -/
def charsVal (cs : List Char) : Nat :=
  cs.foldl (fun a c => 10 * a + (c.toNat - 48)) 0

/-- Decimal digits of `n`, least significant first; `fuel ≥ n` suffices. -/
def natCharsRev : Nat → Nat → List Char
  | 0, _ => []
  | _ + 1, 0 => []
  | f + 1, n + 1 => digitChar ((n + 1) % 10) :: natCharsRev f ((n + 1) / 10)

/-- Decimal digit characters of `n`, most significant first (`"0"` for `0`). -/
def natChars (n : Nat) : List Char :=
  if n = 0 then ['0'] else (natCharsRev n n).reverse

/-- The characters of Python `str(z)` for an integer `z`. -/
def intChars (z : Int) : List Char :=
  if z < 0 then '-' :: natChars z.natAbs else natChars z.natAbs


/-! ## Python `float(text)`: a decimal-literal parser into exact rationals -/

/-- Split a character list into its leading digit run and the remainder. -/
def digitSpan : List Char → List Char × List Char
  | [] => ([], [])
  | c :: cs =>
    if isDigitChar c then
      let p := digitSpan cs
      (c :: p.1, p.2)
    else ([], c :: cs)

/-- Does the list start with a digit? -/
def headIsDigit : List Char → Bool
  | [] => false
  | c :: _ => isDigitChar c

/-- Parse the optional exponent suffix of a float literal; the whole remaining
input must be consumed (`float("1.5x")` is an error). -/
def expParse : List Char → Option Int
  | [] => some 0
  | c :: rest =>
    if c == 'e' || c == 'E' then
      let sr : Int × List Char :=
        match rest with
        | '-' :: r => (-1, r)
        | '+' :: r => (1, r)
        | r => (1, r)
      let ds := digitSpan sr.2
      if ds.1.isEmpty || !ds.2.isEmpty then Option.none
      else some (sr.1 * (charsVal ds.1 : Int))
    else Option.none

/-- Assemble the rational value of a parsed float literal, with a single final
`mkRat` so that concrete runs reduce inside the kernel. -/
def floatVal (neg : Bool) (ip fp : List Char) (ex : Int) : Rat :=
  let mant : Int := (charsVal ip * 10 ^ fp.length + charsVal fp : Nat)
  let mant : Int := if neg then -mant else mant
  let t : Int := ex - (fp.length : Int)
  if 0 ≤ t then mkRat (mant * 10 ^ t.toNat) 1 else mkRat mant (10 ^ (-t).toNat)

/-- Split an optional fractional part (a point followed by a digit run). -/
def fracSplit : List Char → List Char × List Char
  | '.' :: r => digitSpan r
  | r => ([], r)

/-- Final stage of the float parser: reject if no digits at all, parse the
exponent, assemble the value. -/
def parseFloatFin (neg : Bool) (ip fp cs3 : List Char) : Option Rat :=
  if ip.isEmpty && fp.isEmpty then Option.none
  else
    match expParse cs3 with
    | some ex => some (floatVal neg ip fp ex)
    | Option.none => Option.none

/-- The body of the float parser, after the optional sign. -/
def parseFloatBody (neg : Bool) (cs1 : List Char) : Option Rat :=
  parseFloatFin neg (digitSpan cs1).1 (fracSplit (digitSpan cs1).2).1
    (fracSplit (digitSpan cs1).2).2

/-- Python `float(text)` on the character level (literal grammar: optional
sign, digits with an optional point and an optional exponent; no `inf`/`nan`
and no `_` separators, which never occur in this program's data). -/
def parseFloatChars (cs : List Char) : Option Rat :=
  match cs with
  | [] => parseFloatBody false []
  | c :: r =>
    if c == '-' then parseFloatBody true r
    else if c == '+' then parseFloatBody false r
    else parseFloatBody false (c :: r)

/-- Python `float(s)`: strips surrounding whitespace, then parses. -/
def pyParseFloat (s : String) : Option Rat := parseFloatChars (stripChars s.data)

/-- Python `int(q)` for a real `q`: truncation toward zero. -/
def pyTruncQ (q : Rat) : Int := q.num.tdiv (q.den : Int)

/-! ## Python `str(float)`: the exact-decimal printer -/

/-- The least `k ≤ q.den` with `q.den ∣ 10 ^ k`, when one exists (it does
exactly when `q` has a finite decimal expansion). -/
def decExp (q : Rat) : Option Nat :=
  (List.range (q.den + 1)).find? (fun k => 10 ^ k % q.den == 0)

/-- `q` has a finite decimal expansion (true of every Python float). -/
def DecimalRat (q : Rat) : Prop := (decExp q).isSome = true

instance (q : Rat) : Decidable (DecimalRat q) := by
  unfold DecimalRat
  infer_instance

/-- The scaled numerator `q * 10 ^ k` of a nonnegative decimal rational, as a
natural number. -/
def decNum (q : Rat) (k : Nat) : Nat := q.num.toNat * (10 ^ k / q.den)

/-- Left-pad a digit run with zeros to width `k`. -/
def fracPad (k : Nat) (cs : List Char) : List Char :=
  List.replicate (k - cs.length) '0' ++ cs

/-- `str()` of a nonnegative decimal rational: digits, point, digits (e.g.
`"2.0"`, `"1.5"`, `"0.25"`).  A rational with no finite decimal expansion
(impossible for a Python float) prints as the unparseable `"?"`. -/
def floatCharsNN (q : Rat) : List Char :=
  match decExp q with
  | Option.none => ['?']
  | some k =>
    if k = 0 then natChars (decNum q k) ++ ['.', '0']
    else natChars (decNum q k / 10 ^ k) ++ '.' :: fracPad k (natChars (decNum q k % 10 ^ k))

/-- The characters of Python `str(q)` for a float `q`. -/
def floatChars (q : Rat) : List Char :=
  if q < 0 then '-' :: floatCharsNN (-q) else floatCharsNN q

/-- Python `str(q)` for a float `q`. -/
def pyFloatStr (q : Rat) : String := ⟨floatChars q⟩

/-- Python `str(z)` for an int `z`. -/
def pyIntStr (z : Int) : String := ⟨intChars z⟩

/-! ## Python values

`PyVal` covers the Python values reachable in this program's decoded data:
`None`, booleans, ints, floats (exact rationals), strings, lists, and dicts
(insertion-ordered association lists).  A Python `bool` is a subtype of `int`;
the numeric checks below treat it as Python does (`isinstance(True, int)` and
`float(True) == 1.0`). -/

inductive PyVal where
  | none
  | bool (b : Bool)
  | int (n : Int)
  | float (q : Rat)
  | str (s : String)
  | list (xs : List PyVal)
  | dict (kvs : List (String × PyVal))

/-- `d.get(k)`: the value at the first (unique, in Python) matching key. -/
def dictGet (kvs : List (String × PyVal)) (k : String) : Option PyVal :=
  match kvs.find? (fun kv => kv.1 == k) with
  | some kv => some kv.2
  | Option.none => Option.none

/-- `d[k] = v`: replace the value at an existing key in place, else append
(Python dict assignment semantics, preserving insertion order). -/
def dictSet (kvs : List (String × PyVal)) (k : String) (v : PyVal) : List (String × PyVal) :=
  match kvs with
  | [] => [(k, v)]
  | kv :: rest => if kv.1 == k then (k, v) :: rest else kv :: dictSet rest k v

/-! ## The schema validator `_validate_recipe_dict` (views.py lines 116-157) -/

/-- `isinstance(x, (int, float))` (Python bools are ints). -/
def pyIsNum : PyVal → Bool
  | PyVal.bool _ => true
  | PyVal.int _ => true
  | PyVal.float _ => true
  | _ => false

/-- `int(x)` on a numeric Python value (`int(True) == 1`). -/
def pyToInt : PyVal → Int
  | PyVal.bool b => if b then 1 else 0
  | PyVal.int n => n
  | PyVal.float q => pyTruncQ q
  | _ => 0

/-- `float(x)`: converts numbers and numeric strings, raises on anything else
(including `None` and missing values). -/
def pyFloat : Option PyVal → Option Rat
  | some (PyVal.bool b) => some (if b then 1 else 0)
  | some (PyVal.int n) => some ((n : Int) : Rat)
  | some (PyVal.float q) => some q
  | some (PyVal.str s) => pyParseFloat s
  | _ => Option.none

/-- The loop over `ingredients` (1-indexed, fast-failing); returns the message
of the first violation. -/
def checkIngredients : List PyVal → Nat → Except String Unit
  | [], _ => Except.ok ()
  | ing :: rest, i =>
    match ing with
    | PyVal.dict kvs =>
      match dictGet kvs "name" with
      | some (PyVal.str name) =>
        if name.data.isEmpty then
          Except.error s!"Ингредиент #{i}: поле 'name' обязательно."
        else
          match pyFloat (dictGet kvs "amount") with
          | some amountVal =>
            if amountVal ≤ 0 then
              Except.error s!"Ингредиент #{i}: 'amount' должен быть > 0."
            else
              match dictGet kvs "unit" with
              | some (PyVal.str unit) =>
                if unit.data.isEmpty then
                  Except.error s!"Ингредиент #{i}: поле 'unit' обязательно."
                else checkIngredients rest (i + 1)
              | _ => Except.error s!"Ингредиент #{i}: поле 'unit' обязательно."
          | Option.none => Except.error s!"Ингредиент #{i}: поле 'amount' должно быть числом."
      | _ => Except.error s!"Ингредиент #{i}: поле 'name' обязательно."
    | _ => Except.error s!"Ингредиент #{i}: ожидается объект."

/-- One step: `isinstance(s, str) and s.strip()` (truthiness of the stripped
string) for a `steps` element. -/
def stepOk : PyVal → Bool
  | PyVal.str s => !(stripChars s.data).isEmpty
  | _ => false

/-- `_validate_recipe_dict(data)`: the universal recipe-dict validator.  On
success the code mutates `data["servings"] = int(servings)` and returns
`data`; the mutation is modeled by the returned dictionary. -/
def _validate_recipe_dict : PyVal → Except String PyVal
  | PyVal.dict kvs =>
    match dictGet kvs "title" with
    | some (PyVal.str title) =>
      if 1 ≤ title.data.length ∧ title.data.length ≤ 100 then
        match dictGet kvs "servings" with
        | some servings =>
          if pyIsNum servings && decide (1 ≤ pyToInt servings) then
            match dictGet kvs "ingredients" with
            | some (PyVal.list ings) =>
              if ings.isEmpty then
                Except.error "Поле 'ingredients' должно быть непустым списком."
              else
                match checkIngredients ings 1 with
                | Except.error e => Except.error e
                | Except.ok () =>
                  match dictGet kvs "steps" with
                  | some (PyVal.list steps) =>
                    if steps.all stepOk then
                      Except.ok (PyVal.dict (dictSet kvs "servings" (PyVal.int (pyToInt servings))))
                    else Except.error "Поле 'steps' должно быть списком непустых строк."
                  | _ => Except.error "Поле 'steps' должно быть списком непустых строк."
            | _ => Except.error "Поле 'ingredients' должно быть непустым списком."
          else Except.error "Поле 'servings' должно быть целым числом >= 1."
        | Option.none => Except.error "Поле 'servings' должно быть целым числом >= 1."
      else Except.error "Поле 'title' должно быть строкой длиной 1..100."
    | _ => Except.error "Поле 'title' должно быть строкой длиной 1..100."
  | _ => Except.error "Ожидался объект рецепта."

/-! ## The canonical document shape

`RecipeDoc` is the spec's *RecipeDocument*: the canonical structured value
(title, servings, ingredients, steps).  `RecipeDoc.toPyVal` is its Python
dictionary form, with the key order produced by `_from_xml`. -/

structure Ingredient where
  name : String
  amount : Rat
  unit : String

structure RecipeDoc where
  title : String
  servings : Int
  ingredients : List Ingredient
  steps : List String

/-- The Python dict `{"name": …, "unit": …, "amount": …}` of one ingredient. -/
def Ingredient.toPyVal (ing : Ingredient) : PyVal :=
  PyVal.dict [("name", PyVal.str ing.name), ("unit", PyVal.str ing.unit),
    ("amount", PyVal.float ing.amount)]

/-- The Python dict of a canonical recipe document. -/
def RecipeDoc.toPyVal (d : RecipeDoc) : PyVal :=
  PyVal.dict [("title", PyVal.str d.title), ("servings", PyVal.int d.servings),
    ("ingredients", PyVal.list (d.ingredients.map Ingredient.toPyVal)),
    ("steps", PyVal.list (d.steps.map PyVal.str))]

/-! ## XML element trees (`xml.etree.ElementTree` interface) -/

/-- An XML element: tag, attributes, text, children.  `text` of Python `None`
is identified with `""` (observationally equal: every read in this program
goes through `(… or "")`). -/
inductive Element where
  | mk : String → List (String × String) → String → List Element → Element

/-- The element's tag. -/
def Element.tag : Element → String
  | Element.mk t _ _ _ => t

/-- The element's attribute list. -/
def Element.attrib : Element → List (String × String)
  | Element.mk _ a _ _ => a

/-- The element's text, with `None` read as `""`. -/
def Element.textD : Element → String
  | Element.mk _ _ t _ => t

/-- The element's children, in document order. -/
def Element.children : Element → List Element
  | Element.mk _ _ _ c => c

/-- `root.find(tag)`: the first child with the given tag. -/
def findChild (e : Element) (t : String) : Option Element :=
  e.children.find? (fun c => c.tag == t)

/-- `(root.findtext(tag) or "")`. -/
def findtextD (e : Element) (t : String) : String :=
  match findChild e t with
  | some c => c.textD
  | Option.none => ""

/-- `(item.attrib.get(k) or "")`. -/
def attribGetD (e : Element) (k : String) : String :=
  match e.attrib.find? (fun kv => kv.1 == k) with
  | some kv => kv.2
  | Option.none => ""

/-! ## `_to_xml` (views.py lines 168-188) -/

/-- `_to_xml(obj)` on a canonical document: `<recipe>` with `<title>`,
`<servings>`, `<ingredients>` of `<item name=… unit=…>amount</item>`, and
`<steps>` of `<step>` children.  In the source the argument is the validated
dict; on the canonical shape its entries are exactly the fields used here
(`str()` of the int servings and of each float amount). -/
def _to_xml (d : RecipeDoc) : Element :=
  Element.mk "recipe" [] ""
    [Element.mk "title" [] d.title [],
     Element.mk "servings" [] (pyIntStr d.servings) [],
     Element.mk "ingredients" [] ""
       (d.ingredients.map (fun ing =>
         Element.mk "item" [("name", ing.name), ("unit", ing.unit)] (pyFloatStr ing.amount) [])),
     Element.mk "steps" [] "" (d.steps.map (fun st => Element.mk "step" [] st []))]

/-! ## `_from_xml` (views.py lines 190-230) -/

/-- The loop over the children of `<ingredients>`: children not named `item`
are skipped (but still counted by `enumerate`); an `item`'s `name`/`unit`
attributes and text are stripped, `","` in the amount is tolerated. -/
def parseItems : List Element → Nat → Except String (List PyVal)
  | [], _ => Except.ok []
  | item :: rest, i =>
    if item.tag == "item" then
      match pyParseFloat (mapStr commaToDot (pyStrip item.textD)) with
      | some amount =>
        match parseItems rest (i + 1) with
        | Except.ok tail =>
          Except.ok (PyVal.dict
            [("name", PyVal.str (pyStrip (attribGetD item "name"))),
             ("unit", PyVal.str (pyStrip (attribGetD item "unit"))),
             ("amount", PyVal.float amount)] :: tail)
        | Except.error e => Except.error e
      | Option.none => Except.error s!"Ингредиент #{i}: amount должен быть числом."
    else parseItems rest (i + 1)

/-- The loop over the children of `<steps>`: keep the stripped text of `step`
children whose stripped text is non-empty; skip everything else. -/
def parseSteps : List Element → List PyVal
  | [] => []
  | st :: rest =>
    if st.tag == "step" then
      if (pyStrip st.textD).data.isEmpty then parseSteps rest
      else PyVal.str (pyStrip st.textD) :: parseSteps rest
    else parseSteps rest

/-- Stage 4 of `_from_xml`: find `<steps>` and build the result dict. -/
def fromXmlSteps (root : Element) (servings : Int) (ings : List PyVal) :
    Except String PyVal :=
  match findChild root "steps" with
  | Option.none => Except.error "<steps> отсутствует."
  | some stepsEl =>
    Except.ok (PyVal.dict
      [("title", PyVal.str (pyStrip (findtextD root "title"))),
       ("servings", PyVal.int servings),
       ("ingredients", PyVal.list ings),
       ("steps", PyVal.list (parseSteps stepsEl.children))])

/-- Stage 3b of `_from_xml`: parse the items of `<ingredients>`. -/
def fromXmlItems (root : Element) (servings : Int) (ingEl : Element) : Except String PyVal :=
  match parseItems ingEl.children 1 with
  | Except.error e => Except.error e
  | Except.ok ings => fromXmlSteps root servings ings

/-- Stage 3 of `_from_xml`: find `<ingredients>` and parse its items. -/
def fromXmlIngredients (root : Element) (servings : Int) : Except String PyVal :=
  match findChild root "ingredients" with
  | Option.none => Except.error "<ingredients> отсутствует."
  | some ingEl => fromXmlItems root servings ingEl

/-- Stage 2 of `_from_xml`: `int(float(servings_text))`. -/
def fromXmlServings (root : Element) : Except String PyVal :=
  match pyParseFloat (pyStrip (findtextD root "servings")) with
  | Option.none => Except.error "servings в XML должен быть числом."
  | some sq => fromXmlIngredients root (pyTruncQ sq)

/-- Stage 1 of `_from_xml`: the root tag must be `recipe`. -/
def fromXmlRoot (root : Element) : Except String PyVal :=
  if root.tag == "recipe" then fromXmlServings root
  else Except.error "Корневой тег должен быть <recipe>."

/-- `_from_xml(raw)`.  The `Option.none` input models bytes that are not
well-formed XML (where `fromstring` raises; the handler only looks at
`str(e)`, so the exact parser message is immaterial and abbreviated here). -/
def _from_xml : Option Element → Except String PyVal
  | Option.none => Except.error "синтаксическая ошибка XML"
  | some root => fromXmlRoot root

/-- The encoded document with `","` substituted for `"."` in every amount
text (every `item` child of `ingredients`). -/
def commaVariant : Element → Element
  | Element.mk tag attrib text children =>
    Element.mk tag attrib text (children.map (fun c =>
      match c with
      | Element.mk ctag cattrib ctext cchildren =>
        if ctag == "ingredients" then
          Element.mk ctag cattrib ctext (cchildren.map (fun it =>
            match it with
            | Element.mk itag iattrib itext ichildren =>
              if itag == "item" then Element.mk itag iattrib (mapStr dotToComma itext) ichildren
              else Element.mk itag iattrib itext ichildren))
        else Element.mk ctag cattrib ctext cchildren))

/-! ## Characterization of `_from_xml` failure -/

/-- Every `item` child's amount text (stripped, `","` tolerated) parses as a
number. -/
def xmlItemsOk (items : List Element) : Bool :=
  items.all (fun c => !(c.tag == "item") || (pyParseFloat (mapStr commaToDot (pyStrip c.textD))).isSome)

/-- The exact domain of success of `_from_xml`: well-formed, root named
`recipe`, servings text parses as a number, `ingredients` present with all
item amounts numeric, `steps` present. -/
def xmlDecodeOk : Option Element → Bool
  | Option.none => false
  | some root =>
    (root.tag == "recipe")
    && (pyParseFloat (pyStrip (findtextD root "servings"))).isSome
    && (match findChild root "ingredients" with
        | some ingEl => xmlItemsOk ingEl.children
        | Option.none => false)
    && (findChild root "steps").isSome

/-! ## JSON encoding: `json.dumps(obj, ensure_ascii=False, indent=2)` -/

/-- JSON whitespace (`json.loads` skips exactly these). -/
def isJsonWs (c : Char) : Bool := c == ' ' || c == '\t' || c == '\n' || c == '\r'

/-- Lowercase hexadecimal digit. -/
def hexDigitChar (n : Nat) : Char := if n < 10 then Char.ofNat (48 + n) else Char.ofNat (87 + n)

/-- One character, JSON-escaped as `json.dumps` does with `ensure_ascii=False`:
quote, backslash and control characters are escaped, everything else is kept. -/
def escChar (c : Char) : List Char :=
  if c == quoteChar then [bslashChar, quoteChar]
  else if c == bslashChar then [bslashChar, bslashChar]
  else if c == '\n' then [bslashChar, 'n']
  else if c == '\r' then [bslashChar, 'r']
  else if c == '\t' then [bslashChar, 't']
  else if c == Char.ofNat 8 then [bslashChar, 'b']
  else if c == Char.ofNat 12 then [bslashChar, 'f']
  else if c.toNat < 32 then
    [bslashChar, 'u', '0', '0', hexDigitChar (c.toNat / 16), hexDigitChar (c.toNat % 16)]
  else [c]

/-- JSON-escape a character list. -/
def escapeChars : List Char → List Char
  | [] => []
  | c :: rest => escChar c ++ escapeChars rest

/-- A JSON string literal: quote, escaped body, quote. -/
def strLit (s : String) : List Char := quoteChar :: (escapeChars s.data ++ [quoteChar])

/-- `indent=2` indentation at nesting level `lvl`. -/
def indChars (lvl : Nat) : List Char := List.replicate (2 * lvl) ' '

mutual

/-- Render a Python value the way `json.dumps(obj, ensure_ascii=False,
indent=2)` does, at nesting level `lvl`. -/
def printVal (lvl : Nat) : PyVal → List Char
  | PyVal.none => ['n', 'u', 'l', 'l']
  | PyVal.bool true => ['t', 'r', 'u', 'e']
  | PyVal.bool false => ['f', 'a', 'l', 's', 'e']
  | PyVal.int z => intChars z
  | PyVal.float q => floatChars q
  | PyVal.str s => strLit s
  | PyVal.list [] => ['[', ']']
  | PyVal.list (x :: xs) =>
    '[' :: '\n' :: (indChars (lvl + 1) ++ printVal (lvl + 1) x ++ printElemsRest (lvl + 1) xs
      ++ '\n' :: (indChars lvl ++ [']']))
  | PyVal.dict [] => [lcurly, rcurly]
  | PyVal.dict ((k, v) :: kvs) =>
    lcurly :: '\n' :: (indChars (lvl + 1) ++ strLit k ++ ':' :: ' ' :: (printVal (lvl + 1) v
      ++ printMembersRest (lvl + 1) kvs ++ '\n' :: (indChars lvl ++ [rcurly])))

/-- The remaining array elements, each preceded by `",\n" ++ indent`. -/
def printElemsRest (lvl : Nat) : List PyVal → List Char
  | [] => []
  | x :: xs => ',' :: '\n' :: (indChars lvl ++ printVal lvl x ++ printElemsRest lvl xs)

/-- The remaining object members, each preceded by `",\n" ++ indent`. -/
def printMembersRest (lvl : Nat) : List (String × PyVal) → List Char
  | [] => []
  | (k, v) :: kvs =>
    ',' :: '\n' :: (indChars lvl ++ strLit k ++ ':' :: ' ' :: (printVal lvl v
      ++ printMembersRest lvl kvs))

end

/-- `_to_json(obj)`: `json.dumps(obj, ensure_ascii=False, indent=2)` as UTF-8
bytes, modeled as the rendered string. -/
def _to_json (v : PyVal) : String := ⟨printVal 0 v⟩

/-! ## JSON decoding: a recursive-descent model of `json.loads` -/

/-- Hexadecimal digit value. -/
def hexVal (c : Char) : Option Nat :=
  if isDigitChar c then some (c.toNat - 48)
  else if 'a' ≤ c && c ≤ 'f' then some (c.toNat - 87)
  else if 'A' ≤ c && c ≤ 'F' then some (c.toNat - 55)
  else Option.none

/-- Value of four hexadecimal digits. -/
def hex4 (a b c d : Char) : Option Nat :=
  match hexVal a, hexVal b, hexVal c, hexVal d with
  | some va, some vb, some vc, some vd => some (((va * 16 + vb) * 16 + vc) * 16 + vd)
  | _, _, _, _ => Option.none

/-- Shorthand escapes of JSON strings. -/
def unescCh (c : Char) : Option Char :=
  if c == quoteChar then some quoteChar
  else if c == bslashChar then some bslashChar
  else if c == '/' then some '/'
  else if c == 'n' then some '\n'
  else if c == 't' then some '\t'
  else if c == 'r' then some '\r'
  else if c == 'b' then some (Char.ofNat 8)
  else if c == 'f' then some (Char.ofNat 12)
  else Option.none

mutual

/-- Parse a JSON string body after the opening quote (strict mode: raw
control characters are rejected). -/
def parseStrBody : List Char → Option (List Char × List Char)
  | [] => Option.none
  | c :: rest =>
    if c == quoteChar then some ([], rest)
    else if c == bslashChar then parseEsc rest
    else if c.toNat < 32 then Option.none
    else (parseStrBody rest).map (fun p => (c :: p.1, p.2))

/-- Parse what follows a backslash. -/
def parseEsc : List Char → Option (List Char × List Char)
  | [] => Option.none
  | e :: rest =>
    if e == 'u' then parseU rest
    else
      match unescCh e with
      | some ch => (parseStrBody rest).map (fun p => (ch :: p.1, p.2))
      | Option.none => Option.none

/-- Parse the four hex digits of a `\uXXXX` escape (a high surrogate must be
followed by a low one; lone surrogates are not representable as `Char` and
are rejected in this model). -/
def parseU : List Char → Option (List Char × List Char)
  | a :: b :: c :: d :: rest =>
    (match hex4 a b c d with
    | some n =>
      if n < 0xD800 || 0xE000 ≤ n then
        (parseStrBody rest).map (fun p => (Char.ofNat n :: p.1, p.2))
      else if n < 0xDC00 then parseSurr n rest
      else Option.none
    | Option.none => Option.none)
  | _ => Option.none

/-- Parse the low-surrogate half of a surrogate pair. -/
def parseSurr (n : Nat) : List Char → Option (List Char × List Char)
  | e1 :: u1 :: a :: b :: c :: d :: rest =>
    if e1 == bslashChar && u1 == 'u' then
      match hex4 a b c d with
      | some m =>
        if 0xDC00 ≤ m && m < 0xE000 then
          (parseStrBody rest).map
            (fun p => (Char.ofNat (0x10000 + (n - 0xD800) * 1024 + (m - 0xDC00)) :: p.1, p.2))
        else Option.none
      | Option.none => Option.none
    else Option.none
  | _ => Option.none

end

/-- Negate a parsed JSON number. -/
def pyNegNum : PyVal → PyVal
  | PyVal.int n => PyVal.int (-n)
  | PyVal.float q => PyVal.float (-q)
  | v => v

/-- Exponent digits, with the sign already parsed. -/
def expDigits (sign : Int) (cs : List Char) : Option (Int × List Char) :=
  if (digitSpan cs).1.isEmpty then Option.none
  else some (sign * ((charsVal (digitSpan cs).1 : Nat) : Int), (digitSpan cs).2)

/-- The signed digits after `e`/`E`. -/
def expSigned : List Char → Option (Int × List Char)
  | [] => Option.none
  | c :: rest =>
    if c == '-' then expDigits (-1) rest
    else if c == '+' then expDigits 1 rest
    else expDigits 1 (c :: rest)

/-- An optional exponent part of a JSON number. -/
def parseExpOpt : List Char → Option (Int × List Char)
  | [] => some (0, [])
  | c :: rest =>
    if c == 'e' || c == 'E' then expSigned rest
    else some (0, c :: rest)

/-- A fractional part (after the point) followed by an optional exponent. -/
def jsonNumFrac (ip rest : List Char) : Option (PyVal × List Char) :=
  if (digitSpan rest).1.isEmpty then Option.none
  else
    match parseExpOpt (digitSpan rest).2 with
    | some er => some (PyVal.float (floatVal false ip (digitSpan rest).1 er.1), er.2)
    | Option.none => Option.none

/-- What follows the integer digits of a JSON number: a fraction or an
exponent makes a Python `float`, otherwise the number is a Python `int`. -/
def jsonNumTail (ip : List Char) : List Char → Option (PyVal × List Char)
  | [] => some (PyVal.int ((charsVal ip : Nat) : Int), [])
  | c :: rest =>
    if c == '.' then jsonNumFrac ip rest
    else if c == 'e' || c == 'E' then
      match parseExpOpt (c :: rest) with
      | some er => some (PyVal.float (floatVal false ip [] er.1), er.2)
      | Option.none => Option.none
    else some (PyVal.int ((charsVal ip : Nat) : Int), c :: rest)

/-- An unsigned JSON number (we tolerate leading zeros, which `json.loads`
rejects; the encoder never produces them). -/
def parseJsonNumNN (cs : List Char) : Option (PyVal × List Char) :=
  if (digitSpan cs).1.isEmpty then Option.none
  else jsonNumTail (digitSpan cs).1 (digitSpan cs).2

/-- A JSON number with its optional leading minus sign. -/
def parseJsonNum : List Char → Option (PyVal × List Char)
  | [] => Option.none
  | c :: rest =>
    if c == '-' then (parseJsonNumNN rest).map (fun p => (pyNegNum p.1, p.2))
    else parseJsonNumNN (c :: rest)

/-- Skip JSON whitespace. -/
def skipWs : List Char → List Char
  | [] => []
  | c :: cs => if isJsonWs c then skipWs cs else c :: cs

mutual

/-- Parse one JSON value (fuel-structural recursive descent). -/
def parseJsonVal : Nat → List Char → Except String (PyVal × List Char)
  | 0, _ => Except.error "Expecting value"
  | fuel + 1, cs =>
    match skipWs cs with
    | [] => Except.error "Expecting value"
    | c :: rest =>
      if c == quoteChar then
        match parseStrBody rest with
        | some p => Except.ok (PyVal.str ⟨p.1⟩, p.2)
        | Option.none => Except.error "Invalid string"
      else if c == '[' then
        match skipWs rest with
        | c2 :: rest2 =>
          if c2 == ']' then Except.ok (PyVal.list [], rest2)
          else
            match parseJsonElems fuel (c2 :: rest2) with
            | Except.ok p => Except.ok (PyVal.list p.1, p.2)
            | Except.error e => Except.error e
        | [] => Except.error "Expecting value"
      else if c == lcurly then
        match skipWs rest with
        | c2 :: rest2 =>
          if c2 == rcurly then Except.ok (PyVal.dict [], rest2)
          else
            match parseJsonMembers fuel (c2 :: rest2) with
            | Except.ok p => Except.ok (PyVal.dict p.1, p.2)
            | Except.error e => Except.error e
        | [] => Except.error "Expecting property name"
      else if c == 'n' then
        match rest with
        | 'u' :: 'l' :: 'l' :: r => Except.ok (PyVal.none, r)
        | _ => Except.error "Expecting value"
      else if c == 't' then
        match rest with
        | 'r' :: 'u' :: 'e' :: r => Except.ok (PyVal.bool true, r)
        | _ => Except.error "Expecting value"
      else if c == 'f' then
        match rest with
        | 'a' :: 'l' :: 's' :: 'e' :: r => Except.ok (PyVal.bool false, r)
        | _ => Except.error "Expecting value"
      else if c == '-' || isDigitChar c then
        match parseJsonNum (c :: rest) with
        | some p => Except.ok p
        | Option.none => Except.error "Expecting value"
      else Except.error "Expecting value"

/-- Parse one or more comma-separated array elements and the closing `]`. -/
def parseJsonElems : Nat → List Char → Except String (List PyVal × List Char)
  | 0, _ => Except.error "Expecting value"
  | fuel + 1, cs =>
    match parseJsonVal fuel cs with
    | Except.error e => Except.error e
    | Except.ok (v, r) =>
      match skipWs r with
      | ',' :: r2 =>
        match parseJsonElems fuel r2 with
        | Except.ok p => Except.ok (v :: p.1, p.2)
        | Except.error e => Except.error e
      | ']' :: r2 => Except.ok ([v], r2)
      | _ => Except.error "Expecting comma"

/-- Parse one or more `"key": value` members and the closing brace. -/
def parseJsonMembers : Nat → List Char → Except String (List (String × PyVal) × List Char)
  | 0, _ => Except.error "Expecting value"
  | fuel + 1, cs =>
    match skipWs cs with
    | [] => Except.error "Expecting property name"
    | c :: rest =>
      if c == quoteChar then
        match parseStrBody rest with
        | some p =>
          (match skipWs p.2 with
          | ':' :: r2 =>
            (match parseJsonVal fuel r2 with
            | Except.ok vr =>
              (match skipWs vr.2 with
              | ',' :: r4 =>
                (match parseJsonMembers fuel r4 with
                | Except.ok q => Except.ok ((⟨p.1⟩, vr.1) :: q.1, q.2)
                | Except.error e => Except.error e)
              | c5 :: r4 =>
                if c5 == rcurly then Except.ok ([(⟨p.1⟩, vr.1)], r4)
                else Except.error "Expecting comma"
              | [] => Except.error "Expecting comma")
            | Except.error e => Except.error e)
          | _ => Except.error "Expecting colon")
        | Option.none => Except.error "Invalid string"
      else Except.error "Expecting property name"

end

/-- `_from_json(raw)`: `json.loads(raw.decode("utf-8"))`. -/
def _from_json (s : String) : Except String PyVal :=
  match parseJsonVal (s.data.length + 1) s.data with
  | Except.error e => Except.error e
  | Except.ok (v, r) =>
    if (skipWs r).isEmpty then Except.ok v else Except.error "Extra data"

/-! ## JSON round-trip: auxiliary lemmas -/

/-- A remainder that cannot extend a JSON number: empty or headed by a
character that is no digit and none of `.`, `e`, `E`. -/
def jsonNumDelim : List Char → Bool
  | [] => true
  | c :: _ => !(isDigitChar c || c == '.' || c == 'e' || c == 'E')

/-- Values whose floats are decimal rationals (true of every value decoded
from or encoded into this program's data; only such floats render to
parseable text). -/
inductive JGood : PyVal → Prop
  | none : JGood PyVal.none
  | bool (b : Bool) : JGood (PyVal.bool b)
  | int (n : Int) : JGood (PyVal.int n)
  | float (q : Rat) (h : DecimalRat q) : JGood (PyVal.float q)
  | str (s : String) : JGood (PyVal.str s)
  | list (xs : List PyVal) (h : ∀ x ∈ xs, JGood x) : JGood (PyVal.list xs)
  | dict (kvs : List (String × PyVal)) (h : ∀ kv ∈ kvs, JGood kv.2) : JGood (PyVal.dict kvs)

/-! ## File store, `_read_file` (views.py lines 354-362), and the upload
core (views.py lines 410-452)

The on-disk directory of one format is modeled as an association list
from file name to raw content.  `_read_file`'s name filter runs before any
disk access, so a rejected name gives the same result for every directory
state. -/

/-- `s.startswith(p)` on character lists. -/
def startsCl : List Char → List Char → Bool
  | [], _ => true
  | _ :: _, [] => false
  | p :: ps, c :: cs => p == c && startsCl ps cs

/-- `s.endswith(p)` on character lists. -/
def endsCl (p s : List Char) : Bool := startsCl p.reverse s.reverse

/-- `".json" if fmt == "json" else ".xml"`. -/
def fmtSuffix (fmt : String) : String := if fmt == "json" then ".json" else ".xml"

/-- The name filter of `_read_file`:
`fname.startswith("recipe-") and fname.endswith(suffix)`. -/
def readNameOk (fmt fname : String) : Bool :=
  startsCl "recipe-".data fname.data && endsCl (fmtSuffix fmt).data fname.data

/-- `_read_file(fmt, fname)` over the format directory's contents. -/
def _read_file (fmt fname : String) (dir : List (String × String)) :
    Except String String :=
  if !readNameOk fmt fname then Except.error "Некорректное имя файла."
  else
    match dir.find? (fun kv => kv.1 == fname) with
    | some kv => Except.ok kv.2
    | Option.none => Except.error "Файл не найден."

/-- Strip a leading exact prefix, or fail. -/
def dropPre : List Char → List Char → Option (List Char)
  | [], s => some s
  | _ :: _, [] => Option.none
  | p :: ps, c :: cs => if p == c then dropPre ps cs else Option.none

/-- Strip a trailing exact suffix, or fail. -/
def dropSuf (suf s : List Char) : Option (List Char) :=
  (dropPre suf.reverse s.reverse).map List.reverse

/-- A lowercase hexadecimal digit (`uuid4().hex` alphabet). -/
def isLowerHex (c : Char) : Bool :=
  ('0' ≤ c && c ≤ '9') || ('a' ≤ c && c ≤ 'f')

/-- Spec §6 wording: a name of the exact form
`recipe-<random-hex-identifier>.<ext>`.  This definition follows the spec's
words (not the source), for comparison with the source's `readNameOk`. -/
def safeNameForm (fmt fname : String) : Bool :=
  match dropPre "recipe-".data fname.data with
  | Option.none => false
  | some rest =>
    match dropSuf (fmtSuffix fmt).data rest with
    | Option.none => false
    | some hex => !hex.isEmpty && hex.all isLowerHex

/-- The raw content of an uploaded file, at the level this model reads
bytes: a JSON upload is its decoded text, an XML upload is its parsed
element tree (`Option.none` = not well-formed bytes). -/
inductive RawUpload where
  | jsonRaw : String → RawUpload
  | xmlRaw : Option Element → RawUpload

/-- The decode step of `upload_file`: read the written bytes back and run
`_from_json` / `_from_xml`. -/
def decodeUpload : RawUpload → Except String PyVal
  | RawUpload.jsonRaw s => _from_json s
  | RawUpload.xmlRaw x => _from_xml x

/-- Writing `target`: store the content under the generated name. -/
def storeSet : List (String × RawUpload) → String → RawUpload →
    List (String × RawUpload)
  | [], n, v => [(n, v)]
  | (k, w) :: rest, n, v => if k == n then (n, v) :: rest else (k, w) :: storeSet rest n v

/-- `target.unlink(missing_ok=True)`. -/
def storeRemove (dir : List (String × RawUpload)) (n : String) :
    List (String × RawUpload) :=
  dir.filter (fun kv => !(kv.1 == n))

/-- Whether a name exists in the directory. -/
def storeHas (dir : List (String × RawUpload)) (n : String) : Bool :=
  dir.any (fun kv => kv.1 == n)

/-- The write → read back → decode → validate → unlink-on-failure core of
`upload_file` (views.py lines 427-452).  Returns the outcome and the final
directory contents. -/
def uploadCore (up : RawUpload) (name : String) (dir : List (String × RawUpload)) :
    Except String PyVal × List (String × RawUpload) :=
  match decodeUpload up with
  | Except.error e => (Except.error e, storeRemove (storeSet dir name up) name)
  | Except.ok d =>
    match _validate_recipe_dict d with
    | Except.error e => (Except.error e, storeRemove (storeSet dir name up) name)
    | Except.ok v => (Except.ok v, storeSet dir name up)

/-! ## Check-order predicates (views.py lines 127-154)

Boolean forms of the validator's per-field conditions, used to state the
fixed check order and fast-fail behaviour. -/

/-- `isinstance(title, str) and 1 <= len(title) <= 100`. -/
def titleOkB (kvs : List (String × PyVal)) : Bool :=
  match dictGet kvs "title" with
  | some (PyVal.str t) => decide (1 ≤ t.data.length) && decide (t.data.length ≤ 100)
  | _ => false

/-- `isinstance(servings, (int, float)) and int(servings) >= 1`. -/
def servingsOkB (kvs : List (String × PyVal)) : Bool :=
  match dictGet kvs "servings" with
  | some s => pyIsNum s && decide (1 ≤ pyToInt s)
  | Option.none => false

/-- `isinstance(ingredients, list) and ingredients`. -/
def ingFieldOkB (kvs : List (String × PyVal)) : Bool :=
  match dictGet kvs "ingredients" with
  | some (PyVal.list l) => !l.isEmpty
  | _ => false

/-- One ingredient element passes all three per-element checks. -/
def ingOkB (ing : PyVal) : Bool :=
  match ing with
  | PyVal.dict kvs =>
    (match dictGet kvs "name" with
     | some (PyVal.str n) => !n.data.isEmpty
     | _ => false)
    && (match pyFloat (dictGet kvs "amount") with
        | some a => decide (0 < a)
        | Option.none => false)
    && (match dictGet kvs "unit" with
        | some (PyVal.str u) => !u.data.isEmpty
        | _ => false)
  | _ => false

/-! ## The claims -/

/-- An input mapping with valid title, servings and ingredients and an
empty `steps` list. -/
def c1Kvs : List (String × PyVal) :=
  [("title", PyVal.str "A"), ("servings", PyVal.int 1),
   ("ingredients", PyVal.list [PyVal.dict
     [("name", PyVal.str "Sugar"), ("amount", PyVal.int 1), ("unit", PyVal.str "g")]]),
   ("steps", PyVal.list [])]

/-- A document accepted by the validator whose title carries leading
whitespace. -/
def c2Doc : RecipeDoc := RecipeDoc.mk " A" 1 [Ingredient.mk "Sugar" 1 "g"] ["Mix"]

/-- A well-formed document with root `recipe`, `<ingredients>` and `<steps>`
present, but no `<servings>` element. -/
def c4Root : Element := Element.mk "recipe" [] ""
  [Element.mk "ingredients" [] "" [], Element.mk "steps" [] "" []]

/-- An accepted input whose `servings` entry is the float `5/2`. -/
def c5Kvs : List (String × PyVal) :=
  [("title", PyVal.str "A"), ("servings", PyVal.float (mkRat 5 2)),
   ("ingredients", PyVal.list [PyVal.dict
     [("name", PyVal.str "Sugar"), ("amount", PyVal.int 1), ("unit", PyVal.str "g")]]),
   ("steps", PyVal.list [PyVal.str "Mix"])]

/-- A well-formed document exercising every lenient decode behaviour:
servings text `"2.0"`, an amount `"1,5"`, a non-`item` child of
`<ingredients>`, an all-whitespace `<step>` and a non-`step` child of
`<steps>`. -/
def c6Root : Element := Element.mk "recipe" [] ""
  [Element.mk "title" [] "Soup" [],
   Element.mk "servings" [] "2.0" [],
   Element.mk "ingredients" [] ""
     [Element.mk "note" [] "ignore me" [],
      Element.mk "item" [("name", "Sugar"), ("unit", "g")] "1,5" []],
   Element.mk "steps" [] ""
     [Element.mk "step" [] "Mix" [],
      Element.mk "step" [] "   " [],
      Element.mk "remark" [] "skip" []]]

/-- The structured value `c6Root` decodes to: servings truncated to the
integer `2`, the `","` amount read as `3/2`, all skippable children
dropped. -/
def c6Expected : PyVal := PyVal.dict
  [("title", PyVal.str "Soup"), ("servings", PyVal.int 2),
   ("ingredients", PyVal.list [PyVal.dict
     [("name", PyVal.str "Sugar"), ("unit", PyVal.str "g"),
      ("amount", PyVal.float (mkRat 3 2))]]),
   ("steps", PyVal.list [PyVal.str "Mix"])]

theorem dropWhile_eq_self_of_none {p : Char → Bool} :
    ∀ {l : List Char}, (∀ c ∈ l, p c = false) → l.dropWhile p = l
  | [], _ => rfl
  | c :: cs, h => by
    have hc : p c = false := h c (List.mem_cons_self c cs)
    simp [List.dropWhile, hc]

theorem stripChars_eq_self {l : List Char} (h : ∀ c ∈ l, isPyWs c = false) :
    stripChars l = l := by
  unfold stripChars
  rw [dropWhile_eq_self_of_none h]
  rw [dropWhile_eq_self_of_none (fun c hc => h c (List.mem_reverse.mp hc))]
  exact List.reverse_reverse l

theorem toNat_digitChar {d : Nat} (h : d < 10) : (digitChar d).toNat = 48 + d := by
  interval_cases d <;> rfl

theorem isDigit_digitChar {d : Nat} (h : d < 10) : isDigitChar (digitChar d) = true := by
  interval_cases d <;> rfl

theorem charsVal_append_singleton (xs : List Char) (c : Char) :
    charsVal (xs ++ [c]) = 10 * charsVal xs + (c.toNat - 48) := by
  unfold charsVal
  rw [List.foldl_append]
  rfl

theorem natCharsRev_val : ∀ (f n : Nat), n ≤ f → charsVal (natCharsRev f n).reverse = n
  | 0, n, h => by
    interval_cases n
    rfl
  | f + 1, 0, _ => rfl
  | f + 1, n + 1, h => by
    have hrec : (n + 1) / 10 ≤ f := by omega
    have ih := natCharsRev_val f ((n + 1) / 10) hrec
    show charsVal (digitChar ((n + 1) % 10) :: natCharsRev f ((n + 1) / 10)).reverse = n + 1
    rw [List.reverse_cons, charsVal_append_singleton, ih,
      toNat_digitChar (Nat.mod_lt _ (by omega))]
    omega

theorem natCharsRev_digits : ∀ (f n : Nat), ∀ c ∈ natCharsRev f n, isDigitChar c = true
  | 0, _, c, hc => by simp [natCharsRev] at hc
  | _ + 1, 0, c, hc => by simp [natCharsRev] at hc
  | f + 1, n + 1, c, hc => by
    rw [natCharsRev] at hc
    rcases List.mem_cons.mp hc with h | h
    · subst h; exact isDigit_digitChar (Nat.mod_lt _ (by omega))
    · exact natCharsRev_digits f ((n + 1) / 10) c h

theorem natCharsRev_length_le : ∀ (f n k : Nat), n < 10 ^ k → (natCharsRev f n).length ≤ k
  | 0, _, _, _ => by simp [natCharsRev]
  | _ + 1, 0, _, _ => by simp [natCharsRev]
  | f + 1, n + 1, k, h => by
    have hk : 1 ≤ k := by
      by_contra hk
      interval_cases k
      omega
    have hdiv : (n + 1) / 10 < 10 ^ (k - 1) := by
      have hpow : 10 ^ k = 10 ^ (k - 1) * 10 := by
        rw [← pow_succ]
        congr 1
        omega
      rw [hpow] at h
      omega
    have ih := natCharsRev_length_le f ((n + 1) / 10) (k - 1) hdiv
    rw [natCharsRev]
    simp only [List.length_cons]
    omega

theorem charsVal_natChars (n : Nat) : charsVal (natChars n) = n := by
  unfold natChars
  by_cases h : n = 0
  · subst h; rfl
  · rw [if_neg h]
    exact natCharsRev_val n n le_rfl

theorem natChars_digits {n : Nat} : ∀ c ∈ natChars n, isDigitChar c = true := by
  intro c hc
  unfold natChars at hc
  by_cases h : n = 0
  · rw [if_pos h, List.mem_singleton] at hc
    subst hc
    rfl
  · rw [if_neg h, List.mem_reverse] at hc
    exact natCharsRev_digits n n c hc

theorem natChars_ne_nil (n : Nat) : natChars n ≠ [] := by
  unfold natChars
  by_cases h : n = 0
  · simp [h]
  · rw [if_neg h]
    intro hrev
    have hnil : natCharsRev n n = [] := by
      simpa using congrArg List.reverse hrev
    have hv := natCharsRev_val n n le_rfl
    rw [hnil] at hv
    simp [charsVal] at hv
    exact h hv.symm

theorem natChars_length_le {n k : Nat} (hn : n < 10 ^ k) (hk : 1 ≤ k) :
    (natChars n).length ≤ k := by
  unfold natChars
  by_cases h : n = 0
  · simpa [h] using hk
  · rw [if_neg h, List.length_reverse]
    exact natCharsRev_length_le n n k hn

theorem digitSpan_stop {cs : List Char} (h : headIsDigit cs = false) :
    digitSpan cs = ([], cs) := by
  cases cs with
  | nil => rfl
  | cons c t =>
    have : isDigitChar c = false := h
    simp [digitSpan, this]

theorem digitSpan_append {ds : List Char} (hds : ∀ c ∈ ds, isDigitChar c = true)
    {rest : List Char} (h : headIsDigit rest = false) :
    digitSpan (ds ++ rest) = (ds, rest) := by
  induction ds with
  | nil => simpa using digitSpan_stop h
  | cons c t ih =>
    have hc : isDigitChar c = true := hds c (List.mem_cons_self c t)
    have ht := ih (fun x hx => hds x (List.mem_cons_of_mem c hx))
    simp [digitSpan, hc, ht]

/-! ## Round-trip of the decimal printer and parser -/

theorem digit_not_ws {c : Char} (h : isDigitChar c = true) : isPyWs c = false := by
  cases hw : isPyWs c
  · rfl
  · exfalso
    simp only [isPyWs, Bool.or_eq_true, beq_iff_eq] at hw
    rcases hw with ((((h1 | h1) | h1) | h1) | h1) | h1 <;> subst h1 <;> exact absurd h (by decide)

theorem digit_ne_minus {c : Char} (h : isDigitChar c = true) : (c == '-') = false := by
  cases hb : c == '-'
  · rfl
  · exact absurd h (by rw [beq_iff_eq.mp hb]; decide)

theorem digit_ne_plus {c : Char} (h : isDigitChar c = true) : (c == '+') = false := by
  cases hb : c == '+'
  · rfl
  · exact absurd h (by rw [beq_iff_eq.mp hb]; decide)

theorem digit_ne_comma {c : Char} (h : isDigitChar c = true) : c ≠ ',' := by
  intro h1
  subst h1
  exact absurd h (by decide)

theorem charsVal_replicate_zero (j : Nat) (cs : List Char) :
    charsVal (List.replicate j '0' ++ cs) = charsVal cs := by
  induction j with
  | zero => rfl
  | succ j ih =>
    show charsVal ('0' :: (List.replicate j '0' ++ cs)) = charsVal cs
    unfold charsVal at *
    simpa using ih

theorem decExp_dvd {q : Rat} {k : Nat} (h : decExp q = some k) : q.den ∣ 10 ^ k := by
  have hp := List.find?_some h
  exact Nat.dvd_of_mod_eq_zero (beq_iff_eq.mp hp)

theorem cast_decNum {q : Rat} {k : Nat} (hq : 0 ≤ q) (hdvd : q.den ∣ 10 ^ k) :
    ((decNum q k : Nat) : Rat) = q * ((10 ^ k : Nat) : Rat) := by
  have hm : q.den * (10 ^ k / q.den) = 10 ^ k := Nat.mul_div_cancel' hdvd
  have hden : ((q.den : Rat)) ≠ 0 := by
    exact_mod_cast q.den_nz
  have h1 : ((q.num.toNat : Nat) : Rat) = (q.num : Rat) := by
    have hnum : ((q.num.toNat : Int)) = q.num := Int.toNat_of_nonneg (Rat.num_nonneg.mpr hq)
    exact_mod_cast congrArg (fun z : Int => (z : Rat)) hnum
  have hm' : ((q.den : Nat) : Rat) * ((10 ^ k / q.den : Nat) : Rat) = ((10 ^ k : Nat) : Rat) := by
    exact_mod_cast congrArg (fun n : Nat => (n : Rat)) hm
  have hq' : q * q.den = ((q.num : Int) : Rat) := (eq_div_iff hden).mp (Rat.num_div_den q).symm
  unfold decNum
  rw [Nat.cast_mul, h1, ← hm', ← hq']
  ring

theorem mkRat_of_cast_eq {N D : Nat} {q : Rat} (hD : D ≠ 0) (h : (N : Rat) = q * (D : Nat)) :
    mkRat (N : Int) D = q ∧ mkRat (-(N : Int)) D = -q := by
  have hD' : ((D : Rat)) ≠ 0 := by exact_mod_cast hD
  constructor
  · rw [Rat.mkRat_eq_div]
    push_cast
    rw [h]
    field_simp
  · rw [Rat.mkRat_eq_div]
    push_cast
    rw [h]
    field_simp

theorem isEmpty_false_of_ne_nil {l : List Char} (h : l ≠ []) : l.isEmpty = false := by
  cases l with
  | nil => exact absurd rfl h
  | cons a t => rfl

theorem parseFloatBody_floatCharsNN {q : Rat} (hq : 0 ≤ q) (hd : DecimalRat q) (neg : Bool) :
    parseFloatBody neg (floatCharsNN q) = some (if neg then -q else q) := by
  obtain ⟨k, hk⟩ := Option.isSome_iff_exists.mp hd
  have hdvd := decExp_dvd hk
  have hN := cast_decNum hq hdvd
  rcases Nat.eq_zero_or_pos k with hk0 | hkpos
  · -- k = 0: the printed form is `natChars (decNum q 0) ++ ".0"`
    subst hk0
    have hden1 : q.den = 1 := Nat.dvd_one.mp (by simpa using hdvd)
    have hprint : floatCharsNN q = natChars (decNum q 0) ++ '.' :: ['0'] := by
      simp [floatCharsNN, hk]
    rw [hprint]
    unfold parseFloatBody
    rw [digitSpan_append natChars_digits (by rfl)]
    show parseFloatFin neg (natChars (decNum q 0)) (fracSplit ('.' :: ['0'])).1
        (fracSplit ('.' :: ['0'])).2 = _
    rw [show fracSplit ('.' :: ['0']) = (['0'], []) from rfl]
    unfold parseFloatFin
    rw [isEmpty_false_of_ne_nil (natChars_ne_nil _)]
    rw [show expParse [] = some 0 from rfl]
    simp only [Bool.false_and, Bool.false_eq_true, if_false]
    unfold floatVal
    rw [charsVal_natChars]
    norm_num
    have harith : ((decNum q 0 * 10 ^ 1 + charsVal ['0'] : Nat) : Rat)
        = q * ((10 ^ 1 : Nat) : Rat) := by
      rw [show charsVal ['0'] = 0 from rfl]
      push_cast
      push_cast at hN
      rw [hN]
      ring
    have hres := mkRat_of_cast_eq (by norm_num) harith
    cases neg with
    | false =>
      simpa using hres.1
    | true =>
      simpa using hres.2
  · -- k ≥ 1
    have hkne : k ≠ 0 := Nat.pos_iff_ne_zero.mp hkpos
    have hprint : floatCharsNN q
        = natChars (decNum q k / 10 ^ k) ++ '.' :: fracPad k (natChars (decNum q k % 10 ^ k)) := by
      simp [floatCharsNN, hk, hkne]
    have hfrac_digits : ∀ c ∈ fracPad k (natChars (decNum q k % 10 ^ k)), isDigitChar c = true := by
      intro c hc
      rcases List.mem_append.mp hc with h1 | h1
      · rw [(List.mem_replicate.mp h1).2]
        rfl
      · exact natChars_digits c h1
    rw [hprint]
    unfold parseFloatBody
    rw [digitSpan_append natChars_digits (by rfl)]
    show parseFloatFin neg (natChars (decNum q k / 10 ^ k))
        (fracSplit ('.' :: fracPad k (natChars (decNum q k % 10 ^ k)))).1
        (fracSplit ('.' :: fracPad k (natChars (decNum q k % 10 ^ k)))).2 = _
    have hsplit : fracSplit ('.' :: fracPad k (natChars (decNum q k % 10 ^ k)))
        = (fracPad k (natChars (decNum q k % 10 ^ k)), []) := by
      show digitSpan (fracPad k (natChars (decNum q k % 10 ^ k))) = _
      have := @digitSpan_append _ hfrac_digits [] (by rfl)
      simpa using this
    rw [hsplit]
    unfold parseFloatFin
    rw [isEmpty_false_of_ne_nil (natChars_ne_nil _)]
    rw [show expParse [] = some 0 from rfl]
    simp only [Bool.false_and, Bool.false_eq_true, if_false]
    unfold floatVal
    have hlen : (fracPad k (natChars (decNum q k % 10 ^ k))).length = k := by
      have hBlt : decNum q k % 10 ^ k < 10 ^ k :=
        Nat.mod_lt _ (Nat.pos_pow_of_pos k (by norm_num))
      have hle := natChars_length_le hBlt hkpos
      unfold fracPad
      rw [List.length_append, List.length_replicate]
      omega
    have hval : charsVal (fracPad k (natChars (decNum q k % 10 ^ k))) = decNum q k % 10 ^ k := by
      unfold fracPad
      rw [charsVal_replicate_zero, charsVal_natChars]
    rw [charsVal_natChars, hlen, hval]
    have hmant : decNum q k / 10 ^ k * 10 ^ k + decNum q k % 10 ^ k = decNum q k := by
      rw [Nat.mul_comm]
      exact Nat.div_add_mod (decNum q k) (10 ^ k)
    have ht : ¬ ((0 : Int) ≤ 0 - (k : Nat)) := by
      simp only [zero_sub, Left.nonneg_neg_iff]
      exact_mod_cast Nat.not_le.mpr hkpos
    rw [if_neg ht]
    have htoNat : ((-((0 : Int) - (k : Nat))).toNat) = k := by
      simp
    rw [htoNat]
    have harith : ((decNum q k / 10 ^ k * 10 ^ k + decNum q k % 10 ^ k : Nat) : Rat)
        = q * ((10 ^ k : Nat) : Rat) := by
      rw [hmant]
      exact hN
    have hres := mkRat_of_cast_eq (Nat.pos_iff_ne_zero.mp
      (Nat.pos_pow_of_pos k (by norm_num))) harith
    cases neg with
    | false => simpa using hres.1
    | true => simpa using hres.2

theorem natChars_cons (n : Nat) : ∃ c t, natChars n = c :: t ∧ isDigitChar c = true := by
  cases hcs : natChars n with
  | nil => exact absurd hcs (natChars_ne_nil n)
  | cons c t =>
    refine ⟨c, t, rfl, ?_⟩
    exact natChars_digits c (hcs ▸ List.mem_cons_self c t)

theorem decExp_neg (q : Rat) : decExp (-q) = decExp q := by
  unfold decExp
  rw [Rat.neg_den]

theorem DecimalRat.neg {q : Rat} (hd : DecimalRat q) : DecimalRat (-q) := by
  unfold DecimalRat at *
  rw [decExp_neg]
  exact hd

theorem floatCharsNN_class {q : Rat} (hd : DecimalRat q) :
    ∀ c ∈ floatCharsNN q, isDigitChar c = true ∨ c = '.' := by
  obtain ⟨k, hk⟩ := Option.isSome_iff_exists.mp hd
  intro c hc
  by_cases hk0 : k = 0
  · subst hk0
    rw [show floatCharsNN q = natChars (decNum q 0) ++ '.' :: ['0'] from by
      simp [floatCharsNN, hk]] at hc
    rcases List.mem_append.mp hc with h1 | h1
    · exact Or.inl (natChars_digits c h1)
    · rcases List.mem_cons.mp h1 with h2 | h2
      · exact Or.inr h2
      · rw [List.mem_singleton] at h2
        subst h2
        exact Or.inl rfl
  · rw [show floatCharsNN q
        = natChars (decNum q k / 10 ^ k) ++ '.' :: fracPad k (natChars (decNum q k % 10 ^ k))
      from by simp [floatCharsNN, hk, hk0]] at hc
    rcases List.mem_append.mp hc with h1 | h1
    · exact Or.inl (natChars_digits c h1)
    · rcases List.mem_cons.mp h1 with h2 | h2
      · exact Or.inr h2
      · rcases List.mem_append.mp h2 with h3 | h3
        · rw [(List.mem_replicate.mp h3).2]
          exact Or.inl rfl
        · exact Or.inl (natChars_digits c h3)

theorem floatChars_noWs {q : Rat} (hd : DecimalRat q) :
    ∀ c ∈ floatChars q, isPyWs c = false := by
  intro c hc
  unfold floatChars at hc
  by_cases hneg : q < 0
  · rw [if_pos hneg] at hc
    rcases List.mem_cons.mp hc with h1 | h1
    · subst h1
      rfl
    · rcases floatCharsNN_class hd.neg c h1 with h2 | h2
      · exact digit_not_ws h2
      · subst h2
        rfl
  · rw [if_neg hneg] at hc
    rcases floatCharsNN_class hd c hc with h2 | h2
    · exact digit_not_ws h2
    · subst h2
      rfl

theorem floatChars_noComma {q : Rat} (hd : DecimalRat q) :
    ∀ c ∈ floatChars q, c ≠ ',' := by
  intro c hc
  unfold floatChars at hc
  by_cases hneg : q < 0
  · rw [if_pos hneg] at hc
    rcases List.mem_cons.mp hc with h1 | h1
    · subst h1
      decide
    · rcases floatCharsNN_class hd.neg c h1 with h2 | h2
      · exact digit_ne_comma h2
      · subst h2
        decide
  · rw [if_neg hneg] at hc
    rcases floatCharsNN_class hd c hc with h2 | h2
    · exact digit_ne_comma h2
    · subst h2
      decide

theorem parseFloatChars_floatChars {q : Rat} (hd : DecimalRat q) :
    parseFloatChars (floatChars q) = some q := by
  unfold floatChars
  by_cases hneg : q < 0
  · rw [if_pos hneg]
    have hb := parseFloatBody_floatCharsNN (by linarith) hd.neg true
    show parseFloatBody true (floatCharsNN (-q)) = some q
    rw [hb]
    simp
  · rw [if_neg hneg]
    obtain ⟨k, hk⟩ := Option.isSome_iff_exists.mp hd
    have hhead : ∃ c t, floatCharsNN q = c :: t ∧ isDigitChar c = true := by
      by_cases hk0 : k = 0
      · subst hk0
        rw [show floatCharsNN q = natChars (decNum q 0) ++ '.' :: ['0'] from by
          simp [floatCharsNN, hk]]
        obtain ⟨c, t, hct, hc⟩ := natChars_cons (decNum q 0)
        exact ⟨c, t ++ '.' :: ['0'], by rw [hct]; rfl, hc⟩
      · rw [show floatCharsNN q
            = natChars (decNum q k / 10 ^ k) ++ '.' :: fracPad k (natChars (decNum q k % 10 ^ k))
          from by simp [floatCharsNN, hk, hk0]]
        obtain ⟨c, t, hct, hc⟩ := natChars_cons (decNum q k / 10 ^ k)
        exact ⟨c, t ++ '.' :: fracPad k (natChars (decNum q k % 10 ^ k)), by rw [hct]; rfl, hc⟩
    obtain ⟨c, t, hct, hc⟩ := hhead
    have hb := parseFloatBody_floatCharsNN (by linarith) hd false
    rw [hct]
    show (if c == '-' then parseFloatBody true t
      else if c == '+' then parseFloatBody false t
      else parseFloatBody false (c :: t)) = some q
    rw [digit_ne_minus hc, digit_ne_plus hc]
    simp only [Bool.false_eq_true, if_false]
    rw [← hct, hb]
    simp

theorem parseFloatBody_natChars (n : Nat) (neg : Bool) :
    parseFloatBody neg (natChars n) = some (if neg then -(n : Rat) else (n : Rat)) := by
  unfold parseFloatBody
  have hspan : digitSpan (natChars n) = (natChars n, []) := by
    simpa using @digitSpan_append _ natChars_digits [] (by rfl)
  rw [hspan]
  show parseFloatFin neg (natChars n) ([], ([] : List Char)).1 ([], ([] : List Char)).2
      = some (if neg then -(n : Rat) else (n : Rat))
  unfold parseFloatFin
  rw [isEmpty_false_of_ne_nil (natChars_ne_nil _)]
  rw [show expParse [] = some 0 from rfl]
  simp only [Bool.false_and, Bool.false_eq_true, if_false]
  unfold floatVal
  rw [charsVal_natChars]
  simp only [List.length_nil, pow_zero, mul_one]
  rw [show charsVal [] = 0 from rfl]
  have harith : ((n * 1 + 0 : Nat) : Rat) = (n : Rat) * ((1 : Nat) : Rat) := by
    push_cast
    ring
  have hres := mkRat_of_cast_eq (by norm_num) harith
  have h0 : ((0 : Int) - (0 : Nat)) = 0 := by norm_num
  cases neg with
  | false =>
    rw [if_pos (by rw [h0])]
    rw [show ((0 : Int) - (0 : Nat)).toNat = 0 from by rw [h0]; rfl]
    simpa using hres.1
  | true =>
    rw [if_pos (by rw [h0])]
    rw [show ((0 : Int) - (0 : Nat)).toNat = 0 from by rw [h0]; rfl]
    simpa using hres.2

theorem parseFloatChars_intChars (z : Int) : parseFloatChars (intChars z) = some ((z : Int) : Rat) := by
  unfold intChars
  by_cases hneg : z < 0
  · rw [if_pos hneg]
    show parseFloatBody true (natChars z.natAbs) = some ((z : Int) : Rat)
    rw [parseFloatBody_natChars]
    simp only [if_true]
    congr 1
    have habs : -((z.natAbs : Int)) = z := by omega
    exact_mod_cast habs
  · rw [if_neg hneg]
    obtain ⟨c, t, hct, hc⟩ := natChars_cons z.natAbs
    rw [hct]
    show (if c == '-' then parseFloatBody true t
      else if c == '+' then parseFloatBody false t
      else parseFloatBody false (c :: t)) = some ((z : Int) : Rat)
    rw [digit_ne_minus hc, digit_ne_plus hc]
    simp only [Bool.false_eq_true, if_false]
    rw [← hct, parseFloatBody_natChars]
    simp only [Bool.false_eq_true, if_false]
    congr 1
    have hz : (0 : Rat) ≤ (z : Rat) := by exact_mod_cast not_lt.mp hneg
    push_cast [Int.cast_natAbs]
    exact abs_of_nonneg hz

theorem intChars_noWs (z : Int) : ∀ c ∈ intChars z, isPyWs c = false := by
  intro c hc
  unfold intChars at hc
  by_cases hneg : z < 0
  · rw [if_pos hneg] at hc
    rcases List.mem_cons.mp hc with h1 | h1
    · subst h1
      rfl
    · exact digit_not_ws (natChars_digits c h1)
  · rw [if_neg hneg] at hc
    exact digit_not_ws (natChars_digits c hc)

theorem pyParseFloat_pyFloatStr {q : Rat} (hd : DecimalRat q) :
    pyParseFloat (pyFloatStr q) = some q := by
  show parseFloatChars (stripChars (floatChars q)) = some q
  rw [stripChars_eq_self (floatChars_noWs hd)]
  exact parseFloatChars_floatChars hd

theorem pyParseFloat_pyIntStr (z : Int) : pyParseFloat (pyIntStr z) = some ((z : Int) : Rat) := by
  show parseFloatChars (stripChars (intChars z)) = some ((z : Int) : Rat)
  rw [stripChars_eq_self (intChars_noWs z)]
  exact parseFloatChars_intChars z

theorem map_eq_self_of {f : Char → Char} :
    ∀ {l : List Char}, (∀ c ∈ l, f c = c) → l.map f = l
  | [], _ => rfl
  | c :: cs, h => by
    rw [List.map_cons, h c (List.mem_cons_self c cs),
      map_eq_self_of (fun x hx => h x (List.mem_cons_of_mem c hx))]

theorem commaToDot_dotToComma {c : Char} (h : c ≠ ',') : commaToDot (dotToComma c) = c := by
  by_cases hdot : c = '.'
  · subst hdot
    rfl
  · have h1 : (c == '.') = false := beq_eq_false_iff_ne.mpr hdot
    have h2 : (c == ',') = false := beq_eq_false_iff_ne.mpr h
    simp [dotToComma, commaToDot, h1, h2]

theorem pyTruncQ_intCast (z : Int) : pyTruncQ ((z : Int) : Rat) = z := by
  unfold pyTruncQ
  rw [Rat.num_intCast, Rat.den_intCast]
  simp [Int.tdiv_one]

/-! ## The validator on the canonical shape -/

theorem validate_toPyVal_eq (d : RecipeDoc) :
    _validate_recipe_dict d.toPyVal =
      if 1 ≤ d.title.data.length ∧ d.title.data.length ≤ 100 then
        if decide (1 ≤ d.servings) then
          if (d.ingredients.map Ingredient.toPyVal).isEmpty then
            Except.error "Поле 'ingredients' должно быть непустым списком."
          else
            match checkIngredients (d.ingredients.map Ingredient.toPyVal) 1 with
            | Except.error e => Except.error e
            | Except.ok () =>
              if (d.steps.map PyVal.str).all stepOk then Except.ok d.toPyVal
              else Except.error "Поле 'steps' должно быть списком непустых строк."
        else Except.error "Поле 'servings' должно быть целым числом >= 1."
      else Except.error "Поле 'title' должно быть строкой длиной 1..100." := rfl

theorem checkIngredients_map (ings : List Ingredient) (i : Nat) :
    (checkIngredients (ings.map Ingredient.toPyVal) i).isOk = true ↔
      ∀ ing ∈ ings, ing.name.data ≠ [] ∧ 0 < ing.amount ∧ ing.unit.data ≠ [] := by
  induction ings generalizing i with
  | nil => simp [checkIngredients, Except.isOk, Except.toBool]
  | cons ing rest ih =>
    show (checkIngredients (Ingredient.toPyVal ing :: rest.map Ingredient.toPyVal) i).isOk
        = true ↔ _
    have hstep : checkIngredients (Ingredient.toPyVal ing :: rest.map Ingredient.toPyVal) i =
        if ing.name.data.isEmpty then
          Except.error s!"Ингредиент #{i}: поле 'name' обязательно."
        else if ing.amount ≤ 0 then
          Except.error s!"Ингредиент #{i}: 'amount' должен быть > 0."
        else if ing.unit.data.isEmpty then
          Except.error s!"Ингредиент #{i}: поле 'unit' обязательно."
        else checkIngredients (rest.map Ingredient.toPyVal) (i + 1) := rfl
    rw [hstep]
    by_cases hname : ing.name.data.isEmpty
    · rw [if_pos hname]
      simp only [Except.isOk, Except.toBool]
      constructor
      · intro h
        exact absurd h (by simp)
      · intro h
        have := (h ing (List.mem_cons_self ing rest)).1
        exact absurd (List.isEmpty_iff.mp hname) this
    · rw [if_neg hname]
      by_cases hamt : ing.amount ≤ 0
      · rw [if_pos hamt]
        simp only [Except.isOk, Except.toBool]
        constructor
        · intro h
          exact absurd h (by simp)
        · intro h
          have := (h ing (List.mem_cons_self ing rest)).2.1
          linarith
      · rw [if_neg hamt]
        by_cases hunit : ing.unit.data.isEmpty
        · rw [if_pos hunit]
          simp only [Except.isOk, Except.toBool]
          constructor
          · intro h
            exact absurd h (by simp)
          · intro h
            have := (h ing (List.mem_cons_self ing rest)).2.2
            exact absurd (List.isEmpty_iff.mp hunit) this
        · rw [if_neg hunit]
          rw [ih (i + 1)]
          constructor
          · intro h
            intro x hx
            rcases List.mem_cons.mp hx with h1 | h1
            · subst h1
              refine ⟨fun he => hname (by simp [he]), by linarith, fun he => hunit (by simp [he])⟩
            · exact h x h1
          · intro h x hx
            exact h x (List.mem_cons_of_mem ing hx)

theorem validate_toPyVal_isOk_iff (d : RecipeDoc) :
    (_validate_recipe_dict d.toPyVal).isOk = true ↔
      (1 ≤ d.title.data.length ∧ d.title.data.length ≤ 100) ∧ 1 ≤ d.servings ∧
      d.ingredients ≠ [] ∧
      (∀ ing ∈ d.ingredients, ing.name.data ≠ [] ∧ 0 < ing.amount ∧ ing.unit.data ≠ []) ∧
      (∀ s ∈ d.steps, (stripChars s.data).isEmpty = false) := by
  rw [validate_toPyVal_eq]
  by_cases htitle : 1 ≤ d.title.data.length ∧ d.title.data.length ≤ 100
  · rw [if_pos htitle]
    by_cases hserv : 1 ≤ d.servings
    · rw [if_pos (by simpa using hserv)]
      by_cases hempty : (d.ingredients.map Ingredient.toPyVal).isEmpty
      · rw [if_pos hempty]
        simp only [Except.isOk, Except.toBool]
        constructor
        · intro h
          exact absurd h (by simp)
        · intro h
          have : d.ingredients = [] := by
            have := List.isEmpty_iff.mp hempty
            cases hcase : d.ingredients with
            | nil => rfl
            | cons a t => rw [hcase] at this; simp at this
          exact absurd this h.2.2.1
      · rw [if_neg hempty]
        cases hchk : checkIngredients (d.ingredients.map Ingredient.toPyVal) 1 with
        | error e =>
          simp only [Except.isOk, Except.toBool]
          constructor
          · intro h
            exact absurd h (by simp)
          · intro h
            have hok := (checkIngredients_map d.ingredients 1).mpr h.2.2.2.1
            rw [hchk] at hok
            exact absurd hok (by simp [Except.isOk, Except.toBool])
        | ok u =>
          cases u
          by_cases hsteps : (d.steps.map PyVal.str).all stepOk
          · rw [if_pos hsteps]
            simp only [Except.isOk, Except.toBool]
            constructor
            · intro _
              refine ⟨htitle, hserv, ?_, ?_, ?_⟩
              · intro hnil
                apply hempty
                rw [hnil]
                rfl
              · apply (checkIngredients_map d.ingredients 1).mp
                rw [hchk]
                rfl
              · intro s hs
                have := List.all_eq_true.mp hsteps (PyVal.str s) (List.mem_map_of_mem PyVal.str hs)
                simpa [stepOk] using this
            · intro _
              trivial
          · rw [if_neg hsteps]
            simp only [Except.isOk, Except.toBool]
            constructor
            · intro h
              exact absurd h (by simp)
            · intro h
              refine absurd (List.all_eq_true.mpr ?_) hsteps
              intro x hx
              obtain ⟨s, hs, rfl⟩ := List.mem_map.mp hx
              have := h.2.2.2.2 s hs
              simpa [stepOk] using this
    · rw [if_neg (by simpa using hserv)]
      simp only [Except.isOk, Except.toBool]
      constructor
      · intro h
        exact absurd h (by simp)
      · intro h
        exact absurd h.2.1 hserv
  · rw [if_neg htitle]
    simp only [Except.isOk, Except.toBool]
    constructor
    · intro h
      exact absurd h (by simp)
    · intro h
      exact absurd h.1 htitle

/-! ## XML round-trip on the canonical shape -/

theorem commaToDot_eq_self {c : Char} (h : c ≠ ',') : commaToDot c = c := by
  unfold commaToDot
  rw [if_neg (by simpa using h)]

theorem pyStrip_floatStr {q : Rat} (hd : DecimalRat q) : pyStrip (pyFloatStr q) = pyFloatStr q := by
  show (⟨stripChars (floatChars q)⟩ : String) = ⟨floatChars q⟩
  rw [stripChars_eq_self (floatChars_noWs hd)]

theorem pyStrip_intStr (z : Int) : pyStrip (pyIntStr z) = pyIntStr z := by
  show (⟨stripChars (intChars z)⟩ : String) = ⟨intChars z⟩
  rw [stripChars_eq_self (intChars_noWs z)]

theorem amountText_id {q : Rat} (hd : DecimalRat q) :
    pyParseFloat (mapStr commaToDot (pyStrip (pyFloatStr q))) = some q := by
  rw [pyStrip_floatStr hd]
  have hmap : mapStr commaToDot (pyFloatStr q) = pyFloatStr q := by
    show (⟨(floatChars q).map commaToDot⟩ : String) = ⟨floatChars q⟩
    rw [map_eq_self_of (fun c hc => commaToDot_eq_self (floatChars_noComma hd c hc))]
  rw [hmap]
  exact pyParseFloat_pyFloatStr hd

theorem amountText_comma {q : Rat} (hd : DecimalRat q) :
    pyParseFloat (mapStr commaToDot (pyStrip (mapStr dotToComma (pyFloatStr q)))) = some q := by
  have hnows : ∀ c ∈ (floatChars q).map dotToComma, isPyWs c = false := by
    intro c hc
    obtain ⟨a, ha, rfl⟩ := List.mem_map.mp hc
    unfold dotToComma
    by_cases hdot : a = '.'
    · rw [if_pos (by simpa using hdot)]
      rfl
    · rw [if_neg (by simpa using hdot)]
      exact floatChars_noWs hd a ha
  have hstrip : pyStrip (mapStr dotToComma (pyFloatStr q)) = mapStr dotToComma (pyFloatStr q) := by
    show (⟨stripChars ((floatChars q).map dotToComma)⟩ : String) = ⟨(floatChars q).map dotToComma⟩
    rw [stripChars_eq_self hnows]
  rw [hstrip]
  have hmap : mapStr commaToDot (mapStr dotToComma (pyFloatStr q)) = pyFloatStr q := by
    show (⟨((floatChars q).map dotToComma).map commaToDot⟩ : String) = ⟨floatChars q⟩
    rw [List.map_map]
    have hpt : ∀ c ∈ floatChars q, (commaToDot ∘ dotToComma) c = c := by
      intro c hc
      exact commaToDot_dotToComma (floatChars_noComma hd c hc)
    exact congrArg (fun l => String.mk l) (map_eq_self_of hpt)
  rw [hmap]
  exact pyParseFloat_pyFloatStr hd

theorem parseItems_encoded (textOf : Ingredient → String) :
    ∀ (ings : List Ingredient) (i : Nat),
    (∀ ing ∈ ings, pyStrip ing.name = ing.name ∧ pyStrip ing.unit = ing.unit
      ∧ pyParseFloat (mapStr commaToDot (pyStrip (textOf ing))) = some ing.amount) →
    parseItems (ings.map (fun ing =>
        Element.mk "item" [("name", ing.name), ("unit", ing.unit)] (textOf ing) [])) i
      = Except.ok (ings.map Ingredient.toPyVal)
  | [], _, _ => rfl
  | ing :: rest, i, h => by
    have hhead := h ing (List.mem_cons_self ing rest)
    have htail := parseItems_encoded textOf rest (i + 1)
      (fun x hx => h x (List.mem_cons_of_mem ing hx))
    show parseItems (Element.mk "item" [("name", ing.name), ("unit", ing.unit)] (textOf ing) []
        :: rest.map (fun ing =>
          Element.mk "item" [("name", ing.name), ("unit", ing.unit)] (textOf ing) [])) i
      = Except.ok (Ingredient.toPyVal ing :: rest.map Ingredient.toPyVal)
    unfold parseItems
    rw [if_pos (by rfl)]
    rw [show Element.textD (Element.mk "item" [("name", ing.name), ("unit", ing.unit)]
      (textOf ing) []) = textOf ing from rfl]
    rw [hhead.2.2]
    rw [htail]
    rw [show attribGetD (Element.mk "item" [("name", ing.name), ("unit", ing.unit)]
      (textOf ing) []) "name" = ing.name from rfl]
    rw [show attribGetD (Element.mk "item" [("name", ing.name), ("unit", ing.unit)]
      (textOf ing) []) "unit" = ing.unit from rfl]
    rw [hhead.1, hhead.2.1]
    rfl

theorem parseSteps_map : ∀ (steps : List String),
    (∀ s ∈ steps, pyStrip s = s) →
    (∀ s ∈ steps, (stripChars s.data).isEmpty = false) →
    parseSteps (steps.map (fun st => Element.mk "step" [] st [])) = steps.map PyVal.str
  | [], _, _ => rfl
  | st :: rest, htrim, hne => by
    have hhead := htrim st (List.mem_cons_self st rest)
    have hheadne := hne st (List.mem_cons_self st rest)
    have htail := parseSteps_map rest (fun x hx => htrim x (List.mem_cons_of_mem st hx))
      (fun x hx => hne x (List.mem_cons_of_mem st hx))
    show parseSteps (Element.mk "step" [] st []
        :: rest.map (fun s => Element.mk "step" [] s [])) = PyVal.str st :: rest.map PyVal.str
    have hne2 : stripChars st.data ≠ [] := by
      intro hnil
      rw [hnil] at hheadne
      simp at hheadne
    have hdata : stripChars st.data = st.data := congrArg String.data hhead
    have hne3 : st.data ≠ [] := by
      rw [← hdata]
      exact hne2
    unfold parseSteps
    rw [if_pos (by rfl)]
    rw [show Element.textD (Element.mk "step" [] st []) = st from rfl]
    rw [hhead]
    rw [if_neg (by simpa [List.isEmpty_iff] using hne3)]
    rw [htail]

theorem fromXmlRoot_recipe {root : Element} (h : (root.tag == "recipe") = true) :
    fromXmlRoot root = fromXmlServings root := by
  unfold fromXmlRoot
  rw [if_pos h]

theorem fromXmlServings_some {root : Element} {sq : Rat}
    (h : pyParseFloat (pyStrip (findtextD root "servings")) = some sq) :
    fromXmlServings root = fromXmlIngredients root (pyTruncQ sq) := by
  unfold fromXmlServings
  rw [h]

theorem fromXmlIngredients_some {root : Element} {ingEl : Element}
    (hfind : findChild root "ingredients" = some ingEl) (servings : Int) :
    fromXmlIngredients root servings = fromXmlItems root servings ingEl := by
  unfold fromXmlIngredients
  rw [hfind]

theorem fromXmlItems_ok {ingEl : Element} {ings : List PyVal}
    (hparse : parseItems ingEl.children 1 = Except.ok ings) (root : Element) (servings : Int) :
    fromXmlItems root servings ingEl = fromXmlSteps root servings ings := by
  unfold fromXmlItems
  rw [hparse]

theorem fromXmlSteps_some {root : Element} {stepsEl : Element}
    (hfind : findChild root "steps" = some stepsEl) (servings : Int) (ings : List PyVal) :
    fromXmlSteps root servings ings = Except.ok (PyVal.dict
      [("title", PyVal.str (pyStrip (findtextD root "title"))),
       ("servings", PyVal.int servings),
       ("ingredients", PyVal.list ings),
       ("steps", PyVal.list (parseSteps stepsEl.children))]) := by
  unfold fromXmlSteps
  rw [hfind]

/-- Decoding any encoding of a canonical document whose item texts parse back
to the amounts (this covers both `_to_xml d` and its `","`-substituted
variant) recovers the document's dictionary form. -/
theorem from_xml_encoded (d : RecipeDoc) (textOf : Ingredient → String)
    (hitem : ∀ ing ∈ d.ingredients, pyStrip ing.name = ing.name ∧ pyStrip ing.unit = ing.unit
      ∧ pyParseFloat (mapStr commaToDot (pyStrip (textOf ing))) = some ing.amount)
    (htitle : pyStrip d.title = d.title)
    (hsteptrim : ∀ s ∈ d.steps, pyStrip s = s)
    (hstepne : ∀ s ∈ d.steps, (stripChars s.data).isEmpty = false) :
    _from_xml (some (Element.mk "recipe" [] ""
      [Element.mk "title" [] d.title [],
       Element.mk "servings" [] (pyIntStr d.servings) [],
       Element.mk "ingredients" [] "" (d.ingredients.map (fun ing =>
         Element.mk "item" [("name", ing.name), ("unit", ing.unit)] (textOf ing) [])),
       Element.mk "steps" [] "" (d.steps.map (fun st => Element.mk "step" [] st []))]))
      = Except.ok d.toPyVal := by
  show fromXmlRoot (Element.mk "recipe" [] ""
      [Element.mk "title" [] d.title [],
       Element.mk "servings" [] (pyIntStr d.servings) [],
       Element.mk "ingredients" [] "" (d.ingredients.map (fun ing =>
         Element.mk "item" [("name", ing.name), ("unit", ing.unit)] (textOf ing) [])),
       Element.mk "steps" [] "" (d.steps.map (fun st => Element.mk "step" [] st []))])
    = Except.ok d.toPyVal
  rw [fromXmlRoot_recipe (by rfl)]
  have hservtext : findtextD (Element.mk "recipe" [] ""
      [Element.mk "title" [] d.title [],
       Element.mk "servings" [] (pyIntStr d.servings) [],
       Element.mk "ingredients" [] "" (d.ingredients.map (fun ing =>
         Element.mk "item" [("name", ing.name), ("unit", ing.unit)] (textOf ing) [])),
       Element.mk "steps" [] "" (d.steps.map (fun st => Element.mk "step" [] st []))])
      "servings" = pyIntStr d.servings := rfl
  rw [fromXmlServings_some (by
    rw [hservtext, pyStrip_intStr]
    exact pyParseFloat_pyIntStr d.servings)]
  rw [fromXmlIngredients_some (by rfl)]
  rw [fromXmlItems_ok (by
    show parseItems (d.ingredients.map (fun ing =>
      Element.mk "item" [("name", ing.name), ("unit", ing.unit)] (textOf ing) [])) 1
      = Except.ok (d.ingredients.map Ingredient.toPyVal)
    exact parseItems_encoded textOf d.ingredients 1 hitem)]
  rw [fromXmlSteps_some (by rfl)]
  rw [pyTruncQ_intCast]
  have htitletext : findtextD (Element.mk "recipe" [] ""
      [Element.mk "title" [] d.title [],
       Element.mk "servings" [] (pyIntStr d.servings) [],
       Element.mk "ingredients" [] "" (d.ingredients.map (fun ing =>
         Element.mk "item" [("name", ing.name), ("unit", ing.unit)] (textOf ing) [])),
       Element.mk "steps" [] "" (d.steps.map (fun st => Element.mk "step" [] st []))])
      "title" = d.title := rfl
  rw [htitletext, htitle]
  have hsteps : parseSteps (Element.children (Element.mk "steps" [] ""
      (d.steps.map (fun st => Element.mk "step" [] st [])))) = d.steps.map PyVal.str := by
    show parseSteps (d.steps.map (fun st => Element.mk "step" [] st [])) = d.steps.map PyVal.str
    exact parseSteps_map d.steps hsteptrim hstepne
  rw [hsteps]
  rfl

theorem commaVariant_to_xml (d : RecipeDoc) :
    commaVariant (_to_xml d) = Element.mk "recipe" [] ""
      [Element.mk "title" [] d.title [],
       Element.mk "servings" [] (pyIntStr d.servings) [],
       Element.mk "ingredients" [] "" (d.ingredients.map (fun ing =>
         Element.mk "item" [("name", ing.name), ("unit", ing.unit)]
           (mapStr dotToComma (pyFloatStr ing.amount)) [])),
       Element.mk "steps" [] "" (d.steps.map (fun st => Element.mk "step" [] st []))] := by
  unfold _to_xml commaVariant
  simp only [List.map_cons, List.map_nil, List.map_map]
  rfl

/-- The XML round-trip restricted to trim-invariant documents: decoding the
encoding (and the `","`-substituted encoding) of an accepted document whose
title, ingredient names, units, and steps carry no surrounding whitespace
recovers the document exactly. -/
theorem xml_roundtrip_trim_invariant (d : RecipeDoc)
    (hacc : (_validate_recipe_dict d.toPyVal).isOk = true)
    (htitle : pyStrip d.title = d.title)
    (hing : ∀ ing ∈ d.ingredients, pyStrip ing.name = ing.name ∧ pyStrip ing.unit = ing.unit)
    (hsteptrim : ∀ s ∈ d.steps, pyStrip s = s)
    (hdec : ∀ ing ∈ d.ingredients, DecimalRat ing.amount) :
    _from_xml (some (_to_xml d)) = Except.ok d.toPyVal
    ∧ _from_xml (some (commaVariant (_to_xml d))) = Except.ok d.toPyVal := by
  have hstepne := ((validate_toPyVal_isOk_iff d).mp hacc).2.2.2.2
  constructor
  · exact from_xml_encoded d (fun ing => pyFloatStr ing.amount)
      (fun ing hi => ⟨(hing ing hi).1, (hing ing hi).2, amountText_id (hdec ing hi)⟩)
      htitle hsteptrim hstepne
  · rw [commaVariant_to_xml]
    exact from_xml_encoded d (fun ing => mapStr dotToComma (pyFloatStr ing.amount))
      (fun ing hi => ⟨(hing ing hi).1, (hing ing hi).2, amountText_comma (hdec ing hi)⟩)
      htitle hsteptrim hstepne

theorem parseItems_isOk : ∀ (items : List Element) (i : Nat),
    (parseItems items i).isOk = xmlItemsOk items
  | [], _ => rfl
  | c :: rest, i => by
    have ih := parseItems_isOk rest (i + 1)
    have hall : xmlItemsOk (c :: rest)
        = ((!(c.tag == "item") || (pyParseFloat (mapStr commaToDot (pyStrip c.textD))).isSome)
          && xmlItemsOk rest) := rfl
    have hstep : parseItems (c :: rest) i =
        (if c.tag == "item" then
          match pyParseFloat (mapStr commaToDot (pyStrip c.textD)) with
          | some amount =>
            match parseItems rest (i + 1) with
            | Except.ok tail =>
              Except.ok (PyVal.dict
                [("name", PyVal.str (pyStrip (attribGetD c "name"))),
                 ("unit", PyVal.str (pyStrip (attribGetD c "unit"))),
                 ("amount", PyVal.float amount)] :: tail)
            | Except.error e => Except.error e
          | Option.none => Except.error s!"Ингредиент #{i}: amount должен быть числом."
        else parseItems rest (i + 1)) := rfl
    rw [hall, hstep]
    by_cases htag : (c.tag == "item") = true
    · rw [if_pos htag, htag]
      simp only [Bool.not_true, Bool.false_or]
      cases hp : pyParseFloat (mapStr commaToDot (pyStrip c.textD)) with
      | none => simp [Except.isOk, Except.toBool]
      | some a =>
        simp only [Option.isSome_some, Bool.true_and]
        cases hr : parseItems rest (i + 1) with
        | error e =>
          rw [hr] at ih
          simpa [Except.isOk, Except.toBool] using ih
        | ok tail =>
          rw [hr] at ih
          simpa [Except.isOk, Except.toBool] using ih
    · have htag' : (c.tag == "item") = false := by
        cases h : c.tag == "item"
        · rfl
        · exact absurd h htag
      rw [if_neg (by simp [htag']), htag']
      simp only [Bool.not_false, Bool.true_or, Bool.true_and]
      exact ih

theorem from_xml_isOk_eq : ∀ (x : Option Element), (_from_xml x).isOk = xmlDecodeOk x
  | Option.none => rfl
  | some root => by
    show (fromXmlRoot root).isOk =
      ((root.tag == "recipe")
        && (pyParseFloat (pyStrip (findtextD root "servings"))).isSome
        && (match findChild root "ingredients" with
            | some ingEl => xmlItemsOk ingEl.children
            | Option.none => false)
        && (findChild root "steps").isSome)
    unfold fromXmlRoot
    by_cases htag : (root.tag == "recipe") = true
    · rw [if_pos htag, htag]
      simp only [Bool.true_and]
      unfold fromXmlServings
      cases hs : pyParseFloat (pyStrip (findtextD root "servings")) with
      | none =>
        simp [Except.isOk, Except.toBool]
      | some sq =>
        simp only [Option.isSome_some, Bool.true_and]
        cases hf : findChild root "ingredients" with
        | none =>
          rw [show fromXmlIngredients root (pyTruncQ sq)
            = Except.error "<ingredients> отсутствует." from by
              unfold fromXmlIngredients
              rw [hf]]
          simp [Except.isOk, Except.toBool]
        | some ingEl =>
          rw [fromXmlIngredients_some hf]
          show (fromXmlItems root (pyTruncQ sq) ingEl).isOk
            = (xmlItemsOk ingEl.children && (findChild root "steps").isSome)
          cases hp : parseItems ingEl.children 1 with
          | error e =>
            have hok := parseItems_isOk ingEl.children 1
            rw [hp] at hok
            simp only [Except.isOk, Except.toBool] at hok
            rw [show fromXmlItems root (pyTruncQ sq) ingEl = Except.error e from by
              unfold fromXmlItems
              rw [hp]]
            rw [← hok]
            simp [Except.isOk, Except.toBool]
          | ok ings =>
            have hok := parseItems_isOk ingEl.children 1
            rw [hp] at hok
            simp only [Except.isOk, Except.toBool] at hok
            rw [fromXmlItems_ok hp, ← hok]
            simp only [Bool.true_and]
            cases hst : findChild root "steps" with
            | none =>
              rw [show fromXmlSteps root (pyTruncQ sq) ings
                = Except.error "<steps> отсутствует." from by
                  unfold fromXmlSteps
                  rw [hst]]
              simp [Except.isOk, Except.toBool]
            | some stepsEl =>
              rw [fromXmlSteps_some hst]
              simp [Except.isOk, Except.toBool]
    · have htag' : (root.tag == "recipe") = false := by
        cases h : root.tag == "recipe"
        · rfl
        · exact absurd h htag
      rw [if_neg (by simp [htag']), htag']
      simp [Except.isOk, Except.toBool]

theorem skipWs_append_ws : ∀ {pre : List Char}, (∀ c ∈ pre, isJsonWs c = true) →
    ∀ (cs : List Char), skipWs (pre ++ cs) = skipWs cs
  | [], _, _ => rfl
  | c :: pre, h, cs => by
    have hc : isJsonWs c = true := h c (List.mem_cons_self c pre)
    show skipWs (c :: (pre ++ cs)) = skipWs cs
    rw [show skipWs (c :: (pre ++ cs))
      = if isJsonWs c then skipWs (pre ++ cs) else c :: (pre ++ cs) from rfl]
    rw [if_pos hc]
    exact skipWs_append_ws (fun x hx => h x (List.mem_cons_of_mem c hx)) cs

theorem skipWs_cons_not {c : Char} {cs : List Char} (h : isJsonWs c = false) :
    skipWs (c :: cs) = c :: cs := by
  unfold skipWs
  rw [h]
  rfl

theorem indChars_ws (lvl : Nat) : ∀ c ∈ indChars lvl, isJsonWs c = true := by
  intro c hc
  rw [(List.mem_replicate.mp hc).2]
  rfl

theorem nl_ind_ws (lvl : Nat) : ∀ c ∈ '\n' :: indChars lvl, isJsonWs c = true := by
  intro c hc
  rcases List.mem_cons.mp hc with h | h
  · subst h
    rfl
  · exact indChars_ws lvl c h

theorem digit_ne_lit {c x : Char} (h : isDigitChar c = true) (hx : isDigitChar x = false) :
    (c == x) = false := by
  cases hb : c == x
  · rfl
  · rw [beq_iff_eq.mp hb] at h
    exact absurd h (by simp [hx])

theorem jsonNumDelim_of_head {c : Char} (h1 : isDigitChar c = false) (h2 : (c == '.') = false)
    (h3 : (c == 'e') = false) (h4 : (c == 'E') = false) (t : List Char) :
    jsonNumDelim (c :: t) = true := by
  rw [show jsonNumDelim (c :: t) = !(isDigitChar c || c == '.' || c == 'e' || c == 'E') from rfl]
  rw [h1, h2, h3, h4]
  rfl

theorem printVal_head (lvl : Nat) : ∀ {v : PyVal}, JGood v →
    ∃ c t, printVal lvl v = c :: t ∧ isJsonWs c = false ∧ (c == ']') = false
      ∧ (c == rcurly) = false := by
  intro v hg
  cases hg with
  | none => exact ⟨'n', _, rfl, rfl, rfl, rfl⟩
  | bool b =>
    cases b with
    | false => exact ⟨'f', _, rfl, rfl, rfl, rfl⟩
    | true => exact ⟨'t', _, rfl, rfl, rfl, rfl⟩
  | str s => exact ⟨quoteChar, _, rfl, rfl, rfl, rfl⟩
  | int n =>
    show ∃ c t, intChars n = c :: t ∧ _
    unfold intChars
    by_cases hneg : n < 0
    · rw [if_pos hneg]
      exact ⟨'-', _, rfl, rfl, rfl, rfl⟩
    · rw [if_neg hneg]
      obtain ⟨c, t, hct, hc⟩ := natChars_cons n.natAbs
      exact ⟨c, t, hct, by
        have := digit_not_ws hc
        simp only [isPyWs, isJsonWs, Bool.or_eq_false_iff] at this ⊢
        exact ⟨⟨⟨this.1.1.1.1.1, this.1.1.1.1.2⟩, this.1.1.1.2⟩, this.1.1.2⟩,
        digit_ne_lit hc (by decide), digit_ne_lit hc (by decide)⟩
  | float q hd =>
    show ∃ c t, floatChars q = c :: t ∧ _
    unfold floatChars
    by_cases hneg : q < 0
    · rw [if_pos hneg]
      exact ⟨'-', _, rfl, rfl, rfl, rfl⟩
    · rw [if_neg hneg]
      obtain ⟨k, hk⟩ := Option.isSome_iff_exists.mp hd
      have hhead : ∃ c t, floatCharsNN q = c :: t ∧ isDigitChar c = true := by
        by_cases hk0 : k = 0
        · subst hk0
          rw [show floatCharsNN q = natChars (decNum q 0) ++ '.' :: ['0'] from by
            simp [floatCharsNN, hk]]
          obtain ⟨c, t, hct, hc⟩ := natChars_cons (decNum q 0)
          exact ⟨c, t ++ '.' :: ['0'], by rw [hct]; rfl, hc⟩
        · rw [show floatCharsNN q
              = natChars (decNum q k / 10 ^ k) ++ '.' :: fracPad k (natChars (decNum q k % 10 ^ k))
            from by simp [floatCharsNN, hk, hk0]]
          obtain ⟨c, t, hct, hc⟩ := natChars_cons (decNum q k / 10 ^ k)
          exact ⟨c, t ++ '.' :: fracPad k (natChars (decNum q k % 10 ^ k)), by rw [hct]; rfl, hc⟩
      obtain ⟨c, t, hct, hc⟩ := hhead
      refine ⟨c, t, hct, ?_, digit_ne_lit hc (by decide), digit_ne_lit hc (by decide)⟩
      have := digit_not_ws hc
      simp only [isPyWs, isJsonWs, Bool.or_eq_false_iff] at this ⊢
      exact ⟨⟨⟨this.1.1.1.1.1, this.1.1.1.1.2⟩, this.1.1.1.2⟩, this.1.1.2⟩
  | list xs h =>
    cases xs with
    | nil => exact ⟨'[', _, rfl, rfl, rfl, rfl⟩
    | cons x xs => exact ⟨'[', _, rfl, rfl, rfl, rfl⟩
  | dict kvs h =>
    cases kvs with
    | nil => exact ⟨lcurly, _, rfl, rfl, rfl, rfl⟩
    | cons kv kvs =>
      obtain ⟨k, v⟩ := kv
      exact ⟨lcurly, _, rfl, rfl, rfl, rfl⟩

theorem hexVal_hexDigitChar {n : Nat} (h : n < 16) : hexVal (hexDigitChar n) = some n := by
  interval_cases n <;> rfl

theorem parseStrBody_cons (c : Char) (rest : List Char) :
    parseStrBody (c :: rest) =
      (if c == quoteChar then some ([], rest)
      else if c == bslashChar then parseEsc rest
      else if c.toNat < 32 then Option.none
      else (parseStrBody rest).map (fun p => (c :: p.1, p.2))) := rfl

theorem parseU_low {a b c' d : Char} {n : Nat} (hh : hex4 a b c' d = some n)
    (hlow : n < 0xD800) (X : List Char) :
    parseU (a :: b :: c' :: d :: X)
      = (parseStrBody X).map (fun p => (Char.ofNat n :: p.1, p.2)) := by
  unfold parseU
  split
  · rename_i m heq
    rw [hh] at heq
    injection heq with heq'
    subst heq'
    rw [if_pos (by simp only [Bool.or_eq_true, decide_eq_true_eq]; exact Or.inl hlow)]
  · rename_i heq
    rw [hh] at heq
    exact Option.noConfusion heq

theorem parseStrBody_escapeChars : ∀ (cs rest : List Char),
    parseStrBody (escapeChars cs ++ quoteChar :: rest) = some (cs, rest)
  | [], rest => rfl
  | c :: cs, rest => by
    have ih := parseStrBody_escapeChars cs rest
    rw [show escapeChars (c :: cs) = escChar c ++ escapeChars cs from rfl, List.append_assoc]
    show parseStrBody (escChar c ++ (escapeChars cs ++ quoteChar :: rest)) = some (c :: cs, rest)
    unfold escChar
    by_cases h1 : c == quoteChar
    · rw [if_pos h1]
      show parseEsc (quoteChar :: (escapeChars cs ++ quoteChar :: rest)) = _
      rw [show parseEsc (quoteChar :: (escapeChars cs ++ quoteChar :: rest))
        = (parseStrBody (escapeChars cs ++ quoteChar :: rest)).map
            (fun p => (quoteChar :: p.1, p.2)) from rfl]
      rw [ih, beq_iff_eq.mp h1]
      rfl
    · rw [if_neg h1]
      by_cases h2 : c == bslashChar
      · rw [if_pos h2]
        show parseEsc (bslashChar :: (escapeChars cs ++ quoteChar :: rest)) = _
        rw [show parseEsc (bslashChar :: (escapeChars cs ++ quoteChar :: rest))
          = (parseStrBody (escapeChars cs ++ quoteChar :: rest)).map
              (fun p => (bslashChar :: p.1, p.2)) from rfl]
        rw [ih, beq_iff_eq.mp h2]
        rfl
      · rw [if_neg h2]
        by_cases h3 : c == '\n'
        · rw [if_pos h3]
          show parseEsc ('n' :: (escapeChars cs ++ quoteChar :: rest)) = _
          rw [show parseEsc ('n' :: (escapeChars cs ++ quoteChar :: rest))
            = (parseStrBody (escapeChars cs ++ quoteChar :: rest)).map
                (fun p => ('\n' :: p.1, p.2)) from rfl]
          rw [ih, beq_iff_eq.mp h3]
          rfl
        · rw [if_neg h3]
          by_cases h4 : c == '\r'
          · rw [if_pos h4]
            show parseEsc ('r' :: (escapeChars cs ++ quoteChar :: rest)) = _
            rw [show parseEsc ('r' :: (escapeChars cs ++ quoteChar :: rest))
              = (parseStrBody (escapeChars cs ++ quoteChar :: rest)).map
                  (fun p => ('\r' :: p.1, p.2)) from rfl]
            rw [ih, beq_iff_eq.mp h4]
            rfl
          · rw [if_neg h4]
            by_cases h5 : c == '\t'
            · rw [if_pos h5]
              show parseEsc ('t' :: (escapeChars cs ++ quoteChar :: rest)) = _
              rw [show parseEsc ('t' :: (escapeChars cs ++ quoteChar :: rest))
                = (parseStrBody (escapeChars cs ++ quoteChar :: rest)).map
                    (fun p => ('\t' :: p.1, p.2)) from rfl]
              rw [ih, beq_iff_eq.mp h5]
              rfl
            · rw [if_neg h5]
              by_cases h6 : c == Char.ofNat 8
              · rw [if_pos h6]
                show parseEsc ('b' :: (escapeChars cs ++ quoteChar :: rest)) = _
                rw [show parseEsc ('b' :: (escapeChars cs ++ quoteChar :: rest))
                  = (parseStrBody (escapeChars cs ++ quoteChar :: rest)).map
                      (fun p => (Char.ofNat 8 :: p.1, p.2)) from rfl]
                rw [ih, beq_iff_eq.mp h6]
                rfl
              · rw [if_neg h6]
                by_cases h7 : c == Char.ofNat 12
                · rw [if_pos h7]
                  show parseEsc ('f' :: (escapeChars cs ++ quoteChar :: rest)) = _
                  rw [show parseEsc ('f' :: (escapeChars cs ++ quoteChar :: rest))
                    = (parseStrBody (escapeChars cs ++ quoteChar :: rest)).map
                        (fun p => (Char.ofNat 12 :: p.1, p.2)) from rfl]
                  rw [ih, beq_iff_eq.mp h7]
                  rfl
                · rw [if_neg h7]
                  by_cases h8 : c.toNat < 32
                  · rw [if_pos h8]
                    have hdiv : c.toNat / 16 < 16 := by omega
                    have hmod : c.toNat % 16 < 16 := by omega
                    have hhex : hex4 '0' '0' (hexDigitChar (c.toNat / 16))
                        (hexDigitChar (c.toNat % 16)) = some c.toNat := by
                      unfold hex4
                      rw [show hexVal '0' = some 0 from rfl,
                        hexVal_hexDigitChar hdiv, hexVal_hexDigitChar hmod]
                      show some (((0 * 16 + 0) * 16 + c.toNat / 16) * 16 + c.toNat % 16)
                        = some c.toNat
                      exact congrArg some (by omega)
                    show parseEsc ('u' :: ('0' :: '0' :: hexDigitChar (c.toNat / 16)
                      :: hexDigitChar (c.toNat % 16) :: (escapeChars cs ++ quoteChar :: rest))) = _
                    rw [show parseEsc ('u' :: ('0' :: '0' :: hexDigitChar (c.toNat / 16)
                        :: hexDigitChar (c.toNat % 16) :: (escapeChars cs ++ quoteChar :: rest)))
                      = parseU ('0' :: '0' :: hexDigitChar (c.toNat / 16)
                        :: hexDigitChar (c.toNat % 16) :: (escapeChars cs ++ quoteChar :: rest))
                      from rfl]
                    rw [parseU_low hhex (by omega) (escapeChars cs ++ quoteChar :: rest)]
                    rw [ih, Char.ofNat_toNat]
                    rfl
                  · rw [if_neg h8]
                    show parseStrBody (c :: (escapeChars cs ++ quoteChar :: rest)) = _
                    rw [parseStrBody_cons]
                    rw [if_neg (by simp [h1]), if_neg (by simp [h2]), if_neg h8]
                    rw [ih]
                    rfl

theorem floatCharsNN_cons {q : Rat} (hd : DecimalRat q) :
    ∃ c t, floatCharsNN q = c :: t ∧ isDigitChar c = true := by
  obtain ⟨k, hk⟩ := Option.isSome_iff_exists.mp hd
  by_cases hk0 : k = 0
  · subst hk0
    rw [show floatCharsNN q = natChars (decNum q 0) ++ '.' :: ['0'] from by
      simp [floatCharsNN, hk]]
    obtain ⟨c, t, hct, hc⟩ := natChars_cons (decNum q 0)
    exact ⟨c, t ++ '.' :: ['0'], by rw [hct]; rfl, hc⟩
  · rw [show floatCharsNN q
        = natChars (decNum q k / 10 ^ k) ++ '.' :: fracPad k (natChars (decNum q k % 10 ^ k))
      from by simp [floatCharsNN, hk, hk0]]
    obtain ⟨c, t, hct, hc⟩ := natChars_cons (decNum q k / 10 ^ k)
    exact ⟨c, t ++ '.' :: fracPad k (natChars (decNum q k % 10 ^ k)), by rw [hct]; rfl, hc⟩

theorem floatVal_dec0 {q : Rat} (hq : 0 ≤ q) (hk : decExp q = some 0) :
    floatVal false (natChars (decNum q 0)) ['0'] 0 = q := by
  have hdvd := decExp_dvd hk
  have hN := cast_decNum hq hdvd
  unfold floatVal
  rw [charsVal_natChars]
  norm_num
  have harith : ((decNum q 0 * 10 ^ 1 + charsVal ['0'] : Nat) : Rat)
      = q * ((10 ^ 1 : Nat) : Rat) := by
    rw [show charsVal ['0'] = 0 from rfl]
    push_cast
    push_cast at hN
    rw [hN]
    ring
  have hres := mkRat_of_cast_eq (by norm_num) harith
  simpa using hres.1

theorem floatVal_decS {q : Rat} {k : Nat} (hq : 0 ≤ q) (hk : decExp q = some k) (hkpos : 0 < k) :
    floatVal false (natChars (decNum q k / 10 ^ k))
      (fracPad k (natChars (decNum q k % 10 ^ k))) 0 = q := by
  have hdvd := decExp_dvd hk
  have hN := cast_decNum hq hdvd
  unfold floatVal
  have hlen : (fracPad k (natChars (decNum q k % 10 ^ k))).length = k := by
    have hBlt : decNum q k % 10 ^ k < 10 ^ k :=
      Nat.mod_lt _ (Nat.pos_pow_of_pos k (by norm_num))
    have hle := natChars_length_le hBlt hkpos
    unfold fracPad
    rw [List.length_append, List.length_replicate]
    omega
  have hval : charsVal (fracPad k (natChars (decNum q k % 10 ^ k))) = decNum q k % 10 ^ k := by
    unfold fracPad
    rw [charsVal_replicate_zero, charsVal_natChars]
  rw [charsVal_natChars, hlen, hval]
  have hmant : decNum q k / 10 ^ k * 10 ^ k + decNum q k % 10 ^ k = decNum q k := by
    rw [Nat.mul_comm]
    exact Nat.div_add_mod (decNum q k) (10 ^ k)
  have ht : ¬ ((0 : Int) ≤ 0 - (k : Nat)) := by
    simp only [zero_sub, Left.nonneg_neg_iff]
    exact_mod_cast Nat.not_le.mpr hkpos
  rw [if_neg ht]
  have htoNat : ((-((0 : Int) - (k : Nat))).toNat) = k := by
    simp
  rw [htoNat]
  have harith : ((decNum q k / 10 ^ k * 10 ^ k + decNum q k % 10 ^ k : Nat) : Rat)
      = q * ((10 ^ k : Nat) : Rat) := by
    rw [hmant]
    exact hN
  have hres := mkRat_of_cast_eq (Nat.pos_iff_ne_zero.mp
    (Nat.pos_pow_of_pos k (by norm_num))) harith
  simpa using hres.1

theorem jsonNumDelim_head {c : Char} {t : List Char} (h : jsonNumDelim (c :: t) = true) :
    isDigitChar c = false ∧ (c == '.') = false ∧ (c == 'e') = false ∧ (c == 'E') = false := by
  have h' : (!(isDigitChar c || c == '.' || c == 'e' || c == 'E')) = true := h
  simp only [Bool.not_eq_true', Bool.or_eq_false_iff] at h'
  exact ⟨h'.1.1.1, h'.1.1.2, h'.1.2, h'.2⟩

theorem headIsDigit_of_delim {rest : List Char} (h : jsonNumDelim rest = true) :
    headIsDigit rest = false := by
  cases rest with
  | nil => rfl
  | cons c t => exact (jsonNumDelim_head h).1

theorem parseExpOpt_delim {rest : List Char} (h : jsonNumDelim rest = true) :
    parseExpOpt rest = some (0, rest) := by
  cases rest with
  | nil => rfl
  | cons c t =>
    obtain ⟨_, _, he, hE⟩ := jsonNumDelim_head h
    show (if c == 'e' || c == 'E' then expSigned t else some (0, c :: t)) = some (0, c :: t)
    rw [if_neg (by simp [he, hE])]

theorem parseJsonNumNN_natChars (n : Nat) {rest : List Char} (hr : jsonNumDelim rest = true) :
    parseJsonNumNN (natChars n ++ rest) = some (PyVal.int ((n : Nat) : Int), rest) := by
  unfold parseJsonNumNN
  rw [digitSpan_append natChars_digits (headIsDigit_of_delim hr)]
  show (if (natChars n).isEmpty = true then Option.none
    else jsonNumTail (natChars n) rest) = some (PyVal.int ((n : Nat) : Int), rest)
  rw [isEmpty_false_of_ne_nil (natChars_ne_nil n)]
  simp only [Bool.false_eq_true, if_false]
  cases rest with
  | nil =>
    show some (PyVal.int ((charsVal (natChars n) : Nat) : Int), ([] : List Char)) = _
    rw [charsVal_natChars]
  | cons c t =>
    obtain ⟨hd, hdot, he, hE⟩ := jsonNumDelim_head hr
    show (if c == '.' then jsonNumFrac (natChars n) t
      else if c == 'e' || c == 'E' then
        match parseExpOpt (c :: t) with
        | some er => some (PyVal.float (floatVal false (natChars n) [] er.1), er.2)
        | Option.none => Option.none
      else some (PyVal.int ((charsVal (natChars n) : Nat) : Int), c :: t)) = _
    rw [if_neg (by simp [hdot]), if_neg (by simp [he, hE]), charsVal_natChars]

theorem parseJsonNumNN_floatCharsNN {q : Rat} (hq : 0 ≤ q) (hd : DecimalRat q)
    {rest : List Char} (hr : jsonNumDelim rest = true) :
    parseJsonNumNN (floatCharsNN q ++ rest) = some (PyVal.float q, rest) := by
  obtain ⟨k, hk⟩ := Option.isSome_iff_exists.mp hd
  by_cases hk0 : k = 0
  · subst hk0
    rw [show floatCharsNN q = natChars (decNum q 0) ++ '.' :: ['0'] from by
      simp [floatCharsNN, hk]]
    rw [List.append_assoc]
    unfold parseJsonNumNN
    rw [digitSpan_append natChars_digits (by rfl)]
    show (if (natChars (decNum q 0)).isEmpty = true then Option.none
      else jsonNumTail (natChars (decNum q 0)) ('.' :: ('0' :: rest)))
      = some (PyVal.float q, rest)
    rw [isEmpty_false_of_ne_nil (natChars_ne_nil _)]
    simp only [Bool.false_eq_true, if_false]
    show (if ('.' : Char) == '.' then jsonNumFrac (natChars (decNum q 0)) ('0' :: rest)
      else if ('.' : Char) == 'e' || ('.' : Char) == 'E' then
        match parseExpOpt ('.' :: ('0' :: rest)) with
        | some er => some (PyVal.float (floatVal false (natChars (decNum q 0)) [] er.1), er.2)
        | Option.none => Option.none
      else some (PyVal.int ((charsVal (natChars (decNum q 0)) : Nat) : Int), '.' :: ('0' :: rest)))
      = some (PyVal.float q, rest)
    rw [if_pos (by rfl)]
    unfold jsonNumFrac
    rw [show ('0' :: rest) = ['0'] ++ rest from rfl]
    rw [digitSpan_append (by intro c hc; rw [List.mem_singleton] at hc; subst hc; rfl)
      (headIsDigit_of_delim hr)]
    show (if (['0'] : List Char).isEmpty = true then Option.none
      else
        match parseExpOpt rest with
        | some er => some (PyVal.float (floatVal false (natChars (decNum q 0)) ['0'] er.1), er.2)
        | Option.none => Option.none) = some (PyVal.float q, rest)
    rw [parseExpOpt_delim hr]
    show some (PyVal.float (floatVal false (natChars (decNum q 0)) ['0'] 0), rest)
      = some (PyVal.float q, rest)
    rw [floatVal_dec0 hq hk]
  · have hkpos : 0 < k := Nat.pos_of_ne_zero hk0
    rw [show floatCharsNN q
        = natChars (decNum q k / 10 ^ k) ++ '.' :: fracPad k (natChars (decNum q k % 10 ^ k))
      from by simp [floatCharsNN, hk, hk0]]
    rw [List.append_assoc]
    unfold parseJsonNumNN
    rw [digitSpan_append natChars_digits (by rfl)]
    show (if (natChars (decNum q k / 10 ^ k)).isEmpty = true then Option.none
      else jsonNumTail (natChars (decNum q k / 10 ^ k))
        ('.' :: (fracPad k (natChars (decNum q k % 10 ^ k)) ++ rest)))
      = some (PyVal.float q, rest)
    rw [isEmpty_false_of_ne_nil (natChars_ne_nil _)]
    simp only [Bool.false_eq_true, if_false]
    show (if ('.' : Char) == '.' then jsonNumFrac (natChars (decNum q k / 10 ^ k))
        (fracPad k (natChars (decNum q k % 10 ^ k)) ++ rest)
      else if ('.' : Char) == 'e' || ('.' : Char) == 'E' then
        match parseExpOpt ('.' :: (fracPad k (natChars (decNum q k % 10 ^ k)) ++ rest)) with
        | some er =>
          some (PyVal.float (floatVal false (natChars (decNum q k / 10 ^ k)) [] er.1), er.2)
        | Option.none => Option.none
      else some (PyVal.int ((charsVal (natChars (decNum q k / 10 ^ k)) : Nat) : Int),
        '.' :: (fracPad k (natChars (decNum q k % 10 ^ k)) ++ rest)))
      = some (PyVal.float q, rest)
    rw [if_pos (by rfl)]
    unfold jsonNumFrac
    have hfrac_digits : ∀ c ∈ fracPad k (natChars (decNum q k % 10 ^ k)), isDigitChar c = true := by
      intro c hc
      rcases List.mem_append.mp hc with h1 | h1
      · rw [(List.mem_replicate.mp h1).2]
        rfl
      · exact natChars_digits c h1
    rw [digitSpan_append hfrac_digits (headIsDigit_of_delim hr)]
    have hfrac_ne : fracPad k (natChars (decNum q k % 10 ^ k)) ≠ [] := by
      intro hnil
      rcases List.append_eq_nil.mp hnil with ⟨_, h2⟩
      exact natChars_ne_nil _ h2
    show (if (fracPad k (natChars (decNum q k % 10 ^ k))).isEmpty = true then Option.none
      else
        match parseExpOpt rest with
        | some er =>
          some (PyVal.float (floatVal false (natChars (decNum q k / 10 ^ k))
            (fracPad k (natChars (decNum q k % 10 ^ k))) er.1), er.2)
        | Option.none => Option.none) = some (PyVal.float q, rest)
    rw [isEmpty_false_of_ne_nil hfrac_ne]
    simp only [Bool.false_eq_true, if_false]
    rw [parseExpOpt_delim hr]
    show some (PyVal.float (floatVal false (natChars (decNum q k / 10 ^ k))
        (fracPad k (natChars (decNum q k % 10 ^ k))) 0), rest)
      = some (PyVal.float q, rest)
    rw [floatVal_decS hq hk hkpos]

theorem parseJsonNum_intChars (z : Int) {rest : List Char} (hr : jsonNumDelim rest = true) :
    parseJsonNum (intChars z ++ rest) = some (PyVal.int z, rest) := by
  unfold intChars
  by_cases hneg : z < 0
  · rw [if_pos hneg]
    show parseJsonNum ('-' :: (natChars z.natAbs ++ rest)) = some (PyVal.int z, rest)
    rw [show parseJsonNum ('-' :: (natChars z.natAbs ++ rest))
      = (if ('-' : Char) == '-' then
          (parseJsonNumNN (natChars z.natAbs ++ rest)).map (fun p => (pyNegNum p.1, p.2))
        else parseJsonNumNN ('-' :: (natChars z.natAbs ++ rest))) from rfl]
    rw [if_pos (by rfl)]
    rw [parseJsonNumNN_natChars z.natAbs hr]
    show some (PyVal.int (-((z.natAbs : Nat) : Int)), rest) = some (PyVal.int z, rest)
    have : -((z.natAbs : Nat) : Int) = z := by omega
    rw [this]
  · rw [if_neg hneg]
    obtain ⟨c, t, hct, hc⟩ := natChars_cons z.natAbs
    rw [show natChars z.natAbs ++ rest = c :: (t ++ rest) from by rw [hct]; rfl]
    rw [show parseJsonNum (c :: (t ++ rest))
      = (if c == '-' then (parseJsonNumNN (t ++ rest)).map (fun p => (pyNegNum p.1, p.2))
        else parseJsonNumNN (c :: (t ++ rest))) from rfl]
    rw [if_neg (by simp [digit_ne_minus hc])]
    rw [show c :: (t ++ rest) = natChars z.natAbs ++ rest from by rw [hct]; rfl]
    rw [parseJsonNumNN_natChars z.natAbs hr]
    have : ((z.natAbs : Nat) : Int) = z := by omega
    rw [this]

theorem parseJsonNum_floatChars {q : Rat} (hd : DecimalRat q) {rest : List Char}
    (hr : jsonNumDelim rest = true) :
    parseJsonNum (floatChars q ++ rest) = some (PyVal.float q, rest) := by
  unfold floatChars
  by_cases hneg : q < 0
  · rw [if_pos hneg]
    show parseJsonNum ('-' :: (floatCharsNN (-q) ++ rest)) = some (PyVal.float q, rest)
    rw [show parseJsonNum ('-' :: (floatCharsNN (-q) ++ rest))
      = (if ('-' : Char) == '-' then
          (parseJsonNumNN (floatCharsNN (-q) ++ rest)).map (fun p => (pyNegNum p.1, p.2))
        else parseJsonNumNN ('-' :: (floatCharsNN (-q) ++ rest))) from rfl]
    rw [if_pos (by rfl)]
    rw [parseJsonNumNN_floatCharsNN (by linarith) hd.neg hr]
    show some (PyVal.float (-(-q)), rest) = some (PyVal.float q, rest)
    rw [neg_neg]
  · rw [if_neg hneg]
    obtain ⟨c, t, hct, hc⟩ := floatCharsNN_cons hd
    rw [show floatCharsNN q ++ rest = c :: (t ++ rest) from by rw [hct]; rfl]
    rw [show parseJsonNum (c :: (t ++ rest))
      = (if c == '-' then (parseJsonNumNN (t ++ rest)).map (fun p => (pyNegNum p.1, p.2))
        else parseJsonNumNN (c :: (t ++ rest))) from rfl]
    rw [if_neg (by simp [digit_ne_minus hc])]
    rw [show c :: (t ++ rest) = floatCharsNN q ++ rest from by rw [hct]; rfl]
    rw [parseJsonNumNN_floatCharsNN (by linarith) hd hr]

theorem jsonWs_of_pyWs {c : Char} (h : isPyWs c = false) : isJsonWs c = false := by
  cases hj : isJsonWs c
  · rfl
  · exfalso
    simp only [isJsonWs, Bool.or_eq_true, beq_iff_eq] at hj
    rcases hj with ((h1 | h1) | h1) | h1 <;> subst h1 <;> exact absurd h (by decide)

theorem parseJsonVal_succ (f : Nat) (cs : List Char) :
    parseJsonVal (f + 1) cs
      = (match skipWs cs with
        | [] => Except.error "Expecting value"
        | c :: rest =>
          if c == quoteChar then
            match parseStrBody rest with
            | some p => Except.ok (PyVal.str ⟨p.1⟩, p.2)
            | Option.none => Except.error "Invalid string"
          else if c == '[' then
            match skipWs rest with
            | c2 :: rest2 =>
              if c2 == ']' then Except.ok (PyVal.list [], rest2)
              else
                match parseJsonElems f (c2 :: rest2) with
                | Except.ok p => Except.ok (PyVal.list p.1, p.2)
                | Except.error e => Except.error e
            | [] => Except.error "Expecting value"
          else if c == lcurly then
            match skipWs rest with
            | c2 :: rest2 =>
              if c2 == rcurly then Except.ok (PyVal.dict [], rest2)
              else
                match parseJsonMembers f (c2 :: rest2) with
                | Except.ok p => Except.ok (PyVal.dict p.1, p.2)
                | Except.error e => Except.error e
            | [] => Except.error "Expecting property name"
          else if c == 'n' then
            match rest with
            | 'u' :: 'l' :: 'l' :: r => Except.ok (PyVal.none, r)
            | _ => Except.error "Expecting value"
          else if c == 't' then
            match rest with
            | 'r' :: 'u' :: 'e' :: r => Except.ok (PyVal.bool true, r)
            | _ => Except.error "Expecting value"
          else if c == 'f' then
            match rest with
            | 'a' :: 'l' :: 's' :: 'e' :: r => Except.ok (PyVal.bool false, r)
            | _ => Except.error "Expecting value"
          else if c == '-' || isDigitChar c then
            match parseJsonNum (c :: rest) with
            | some p => Except.ok p
            | Option.none => Except.error "Expecting value"
          else Except.error "Expecting value") := rfl

theorem parseJsonVal_wsPre (f : Nat) {pre : List Char}
    (h : ∀ c ∈ pre, isJsonWs c = true) (cs : List Char) :
    parseJsonVal (f + 1) (pre ++ cs) = parseJsonVal (f + 1) cs := by
  rw [parseJsonVal_succ, parseJsonVal_succ, skipWs_append_ws h]

theorem parseJsonVal_digitHead (f : Nat) {c : Char} (rest : List Char)
    (hc : isDigitChar c = true) :
    parseJsonVal (f + 1) (c :: rest)
      = (match parseJsonNum (c :: rest) with
        | some p => Except.ok p
        | Option.none => Except.error "Expecting value") := by
  rw [parseJsonVal_succ, skipWs_cons_not (jsonWs_of_pyWs (digit_not_ws hc))]
  show (if c == quoteChar then
      match parseStrBody rest with
      | some p => Except.ok (PyVal.str ⟨p.1⟩, p.2)
      | Option.none => Except.error "Invalid string"
    else if c == '[' then
      match skipWs rest with
      | c2 :: rest2 =>
        if c2 == ']' then Except.ok (PyVal.list [], rest2)
        else
          match parseJsonElems f (c2 :: rest2) with
          | Except.ok p => Except.ok (PyVal.list p.1, p.2)
          | Except.error e => Except.error e
      | [] => Except.error "Expecting value"
    else if c == lcurly then
      match skipWs rest with
      | c2 :: rest2 =>
        if c2 == rcurly then Except.ok (PyVal.dict [], rest2)
        else
          match parseJsonMembers f (c2 :: rest2) with
          | Except.ok p => Except.ok (PyVal.dict p.1, p.2)
          | Except.error e => Except.error e
      | [] => Except.error "Expecting property name"
    else if c == 'n' then
      match rest with
      | 'u' :: 'l' :: 'l' :: r => Except.ok (PyVal.none, r)
      | _ => Except.error "Expecting value"
    else if c == 't' then
      match rest with
      | 'r' :: 'u' :: 'e' :: r => Except.ok (PyVal.bool true, r)
      | _ => Except.error "Expecting value"
    else if c == 'f' then
      match rest with
      | 'a' :: 'l' :: 's' :: 'e' :: r => Except.ok (PyVal.bool false, r)
      | _ => Except.error "Expecting value"
    else if c == '-' || isDigitChar c then
      match parseJsonNum (c :: rest) with
      | some p => Except.ok p
      | Option.none => Except.error "Expecting value"
    else Except.error "Expecting value") = _
  have e1 := digit_ne_lit (x := quoteChar) hc (by decide)
  have e2 := digit_ne_lit (x := '[') hc (by decide)
  have e3 := digit_ne_lit (x := lcurly) hc (by decide)
  have e4 := digit_ne_lit (x := 'n') hc (by decide)
  have e5 := digit_ne_lit (x := 't') hc (by decide)
  have e6 := digit_ne_lit (x := 'f') hc (by decide)
  rw [if_neg (by simp [e1]), if_neg (by simp [e2]), if_neg (by simp [e3]),
    if_neg (by simp [e4]), if_neg (by simp [e5]), if_neg (by simp [e6]),
    if_pos (by simp [hc])]

theorem printVal_length_pos {v : PyVal} (lvl : Nat) (hg : JGood v) :
    0 < (printVal lvl v).length := by
  obtain ⟨c, t, hct, -⟩ := printVal_head lvl hg
  rw [hct]
  simp

theorem jsonNumDelim_comma (t : List Char) : jsonNumDelim (',' :: t) = true := rfl

theorem jsonNumDelim_nl (t : List Char) : jsonNumDelim ('\n' :: t) = true := rfl

theorem parseJsonMembers_succ (f : Nat) (cs : List Char) :
    parseJsonMembers (f + 1) cs
      = (match skipWs cs with
        | [] => Except.error "Expecting property name"
        | c :: rest =>
          if c == quoteChar then
            match parseStrBody rest with
            | some p =>
              (match skipWs p.2 with
              | ':' :: r2 =>
                (match parseJsonVal f r2 with
                | Except.ok vr =>
                  (match skipWs vr.2 with
                  | ',' :: r4 =>
                    (match parseJsonMembers f r4 with
                    | Except.ok q => Except.ok ((⟨p.1⟩, vr.1) :: q.1, q.2)
                    | Except.error e => Except.error e)
                  | c5 :: r4 =>
                    if c5 == rcurly then Except.ok ([(⟨p.1⟩, vr.1)], r4)
                    else Except.error "Expecting comma"
                  | [] => Except.error "Expecting comma")
                | Except.error e => Except.error e)
              | _ => Except.error "Expecting colon")
            | Option.none => Except.error "Invalid string"
          else Except.error "Expecting property name") := rfl

theorem parseJsonMembers_wsPre (f : Nat) {pre : List Char}
    (h : ∀ c ∈ pre, isJsonWs c = true) (cs : List Char) :
    parseJsonMembers (f + 1) (pre ++ cs) = parseJsonMembers (f + 1) cs := by
  rw [parseJsonMembers_succ, parseJsonMembers_succ, skipWs_append_ws h]

theorem parseJsonMembers_quote (f : Nat) (B : List Char) :
    parseJsonMembers (f + 1) (quoteChar :: B)
      = (match parseStrBody B with
        | some p =>
          (match skipWs p.2 with
          | ':' :: r2 =>
            (match parseJsonVal f r2 with
            | Except.ok vr =>
              (match skipWs vr.2 with
              | ',' :: r4 =>
                (match parseJsonMembers f r4 with
                | Except.ok q => Except.ok ((⟨p.1⟩, vr.1) :: q.1, q.2)
                | Except.error e => Except.error e)
              | c5 :: r4 =>
                if c5 == rcurly then Except.ok ([(⟨p.1⟩, vr.1)], r4)
                else Except.error "Expecting comma"
              | [] => Except.error "Expecting comma")
            | Except.error e => Except.error e)
          | _ => Except.error "Expecting colon")
        | Option.none => Except.error "Invalid string") := rfl

mutual

theorem rtJson_val : ∀ (v : PyVal) (lvl fuel : Nat) (rest : List Char), JGood v →
    (printVal lvl v).length < fuel → jsonNumDelim rest = true →
    parseJsonVal fuel (printVal lvl v ++ rest) = Except.ok (v, rest)
  | PyVal.none, lvl, fuel, rest, _, hf, _ => by
    cases fuel with
    | zero => exact absurd hf (by simp [printVal])
    | succ f => rfl
  | PyVal.bool b, lvl, fuel, rest, _, hf, _ => by
    cases fuel with
    | zero => exact absurd hf (by cases b <;> simp [printVal])
    | succ f => cases b <;> rfl
  | PyVal.int z, lvl, fuel, rest, _, hf, hr => by
    cases fuel with
    | zero => exact absurd hf (by simp)
    | succ f =>
      show parseJsonVal (f + 1) (intChars z ++ rest) = Except.ok (PyVal.int z, rest)
      have hnum := parseJsonNum_intChars z hr
      by_cases hneg : z < 0
      · have hshape : intChars z = '-' :: natChars z.natAbs := by
          unfold intChars
          rw [if_pos hneg]
        rw [hshape] at hnum ⊢
        show parseJsonVal (f + 1) ('-' :: (natChars z.natAbs ++ rest)) = _
        rw [show parseJsonVal (f + 1) ('-' :: (natChars z.natAbs ++ rest))
          = (match parseJsonNum ('-' :: (natChars z.natAbs ++ rest)) with
            | some p => Except.ok p
            | Option.none => Except.error "Expecting value") from rfl]
        rw [show ('-' :: (natChars z.natAbs ++ rest) : List Char)
          = ('-' :: natChars z.natAbs) ++ rest from rfl]
        rw [hnum]
      · have hshape : intChars z = natChars z.natAbs := by
          unfold intChars
          rw [if_neg hneg]
        rw [hshape] at hnum ⊢
        obtain ⟨c, t, hct, hc⟩ := natChars_cons z.natAbs
        rw [hct] at hnum ⊢
        show parseJsonVal (f + 1) (c :: (t ++ rest)) = _
        rw [parseJsonVal_digitHead f (t ++ rest) hc]
        rw [show (c :: (t ++ rest) : List Char) = (c :: t) ++ rest from rfl]
        rw [hnum]
  | PyVal.float q, lvl, fuel, rest, hg, hf, hr => by
    cases fuel with
    | zero => exact absurd hf (by simp)
    | succ f =>
      have hd : DecimalRat q := by
        cases hg with
        | float q h => exact h
      show parseJsonVal (f + 1) (floatChars q ++ rest) = Except.ok (PyVal.float q, rest)
      have hnum := parseJsonNum_floatChars hd hr
      by_cases hneg : q < 0
      · have hshape : floatChars q = '-' :: floatCharsNN (-q) := by
          unfold floatChars
          rw [if_pos hneg]
        rw [hshape] at hnum ⊢
        show parseJsonVal (f + 1) ('-' :: (floatCharsNN (-q) ++ rest)) = _
        rw [show parseJsonVal (f + 1) ('-' :: (floatCharsNN (-q) ++ rest))
          = (match parseJsonNum ('-' :: (floatCharsNN (-q) ++ rest)) with
            | some p => Except.ok p
            | Option.none => Except.error "Expecting value") from rfl]
        rw [show ('-' :: (floatCharsNN (-q) ++ rest) : List Char)
          = ('-' :: floatCharsNN (-q)) ++ rest from rfl]
        rw [hnum]
      · have hshape : floatChars q = floatCharsNN q := by
          unfold floatChars
          rw [if_neg hneg]
        rw [hshape] at hnum ⊢
        obtain ⟨c, t, hct, hc⟩ := floatCharsNN_cons hd
        rw [hct] at hnum ⊢
        show parseJsonVal (f + 1) (c :: (t ++ rest)) = _
        rw [parseJsonVal_digitHead f (t ++ rest) hc]
        rw [show (c :: (t ++ rest) : List Char) = (c :: t) ++ rest from rfl]
        rw [hnum]
  | PyVal.str s, lvl, fuel, rest, _, hf, _ => by
    cases fuel with
    | zero => exact absurd hf (by simp)
    | succ f =>
      show parseJsonVal (f + 1) (strLit s ++ rest) = Except.ok (PyVal.str s, rest)
      rw [show strLit s ++ rest
        = quoteChar :: (escapeChars s.data ++ quoteChar :: rest) from by
          show (quoteChar :: (escapeChars s.data ++ [quoteChar])) ++ rest = _
          rw [List.cons_append, List.append_assoc]
          rfl]
      rw [show parseJsonVal (f + 1) (quoteChar :: (escapeChars s.data ++ quoteChar :: rest))
        = (match parseStrBody (escapeChars s.data ++ quoteChar :: rest) with
          | some p => Except.ok (PyVal.str ⟨p.1⟩, p.2)
          | Option.none => Except.error "Invalid string") from rfl]
      rw [parseStrBody_escapeChars s.data rest]
  | PyVal.list [], lvl, fuel, rest, _, hf, _ => by
    cases fuel with
    | zero => exact absurd hf (by simp [printVal])
    | succ f => rfl
  | PyVal.list (x :: xs), lvl, fuel, rest, hg, hf, _ => by
    cases fuel with
    | zero => exact absurd hf (by simp)
    | succ f =>
      have hgall : ∀ y ∈ x :: xs, JGood y := by
        cases hg with
        | list xs h => exact h
      have hshape : printVal lvl (PyVal.list (x :: xs)) ++ rest
          = '[' :: '\n' :: (indChars (lvl + 1)
            ++ (printVal (lvl + 1) x ++ (printElemsRest (lvl + 1) xs
              ++ '\n' :: (indChars lvl ++ (']' :: rest))))) := by
        show ('[' :: '\n' :: (indChars (lvl + 1) ++ printVal (lvl + 1) x
          ++ printElemsRest (lvl + 1) xs ++ '\n' :: (indChars lvl ++ [']']))) ++ rest = _
        simp only [List.cons_append, List.append_assoc, List.singleton_append,
          List.nil_append]
      rw [hshape]
      rw [show parseJsonVal (f + 1) ('[' :: '\n' :: (indChars (lvl + 1)
            ++ (printVal (lvl + 1) x ++ (printElemsRest (lvl + 1) xs
              ++ '\n' :: (indChars lvl ++ (']' :: rest))))))
        = (match skipWs ('\n' :: (indChars (lvl + 1)
            ++ (printVal (lvl + 1) x ++ (printElemsRest (lvl + 1) xs
              ++ '\n' :: (indChars lvl ++ (']' :: rest)))))) with
          | c2 :: rest2 =>
            if c2 == ']' then Except.ok (PyVal.list [], rest2)
            else
              match parseJsonElems f (c2 :: rest2) with
              | Except.ok p => Except.ok (PyVal.list p.1, p.2)
              | Except.error e => Except.error e
          | [] => Except.error "Expecting value") from rfl]
      rw [show skipWs ('\n' :: (indChars (lvl + 1)
            ++ (printVal (lvl + 1) x ++ (printElemsRest (lvl + 1) xs
              ++ '\n' :: (indChars lvl ++ (']' :: rest))))))
        = skipWs (printVal (lvl + 1) x ++ (printElemsRest (lvl + 1) xs
              ++ '\n' :: (indChars lvl ++ (']' :: rest)))) from by
          rw [show ('\n' :: (indChars (lvl + 1)
              ++ (printVal (lvl + 1) x ++ (printElemsRest (lvl + 1) xs
                ++ '\n' :: (indChars lvl ++ (']' :: rest))))) : List Char)
            = ('\n' :: indChars (lvl + 1)) ++ (printVal (lvl + 1) x
              ++ (printElemsRest (lvl + 1) xs
                ++ '\n' :: (indChars lvl ++ (']' :: rest)))) from rfl]
          exact skipWs_append_ws (nl_ind_ws (lvl + 1)) _]
      obtain ⟨c0, t0, hct0, hws0, hbr0, -⟩ :=
        printVal_head (lvl + 1) (hgall x (List.mem_cons_self x xs))
      rw [hct0, List.cons_append, skipWs_cons_not hws0]
      rw [show (match c0 :: (t0 ++ (printElemsRest (lvl + 1) xs
            ++ '\n' :: (indChars lvl ++ (']' :: rest)))) with
          | c2 :: rest2 =>
            if c2 == ']' then Except.ok (PyVal.list [], rest2)
            else
              match parseJsonElems f (c2 :: rest2) with
              | Except.ok p => Except.ok (PyVal.list p.1, p.2)
              | Except.error e => Except.error e
          | [] => Except.error "Expecting value")
        = (if c0 == ']' then
            Except.ok (PyVal.list [], t0 ++ (printElemsRest (lvl + 1) xs
              ++ '\n' :: (indChars lvl ++ (']' :: rest))))
          else
            match parseJsonElems f (c0 :: (t0 ++ (printElemsRest (lvl + 1) xs
                ++ '\n' :: (indChars lvl ++ (']' :: rest))))) with
            | Except.ok p => Except.ok (PyVal.list p.1, p.2)
            | Except.error e => Except.error e) from rfl]
      rw [if_neg (by simp [hbr0])]
      have hlen : (printVal (lvl + 1) x ++ printElemsRest (lvl + 1) xs).length + 1 < f := by
        have : (printVal lvl (PyVal.list (x :: xs))).length < f + 1 := hf
        rw [show printVal lvl (PyVal.list (x :: xs))
          = '[' :: '\n' :: (indChars (lvl + 1) ++ printVal (lvl + 1) x
            ++ printElemsRest (lvl + 1) xs ++ '\n' :: (indChars lvl ++ [']'])) from rfl] at this
        simp only [List.length_cons, List.length_append] at this ⊢
        omega
      have key := rtJson_elems x xs (lvl + 1) lvl f ([] : List Char) rest
        (by intro c hc; exact absurd hc (List.not_mem_nil c)) hgall hlen
      rw [List.nil_append] at key
      rw [show (c0 :: (t0 ++ (printElemsRest (lvl + 1) xs
          ++ '\n' :: (indChars lvl ++ (']' :: rest)))) : List Char)
        = (c0 :: t0) ++ (printElemsRest (lvl + 1) xs
          ++ '\n' :: (indChars lvl ++ (']' :: rest))) from rfl]
      rw [← hct0, key]
  | PyVal.dict [], lvl, fuel, rest, _, hf, _ => by
    cases fuel with
    | zero => exact absurd hf (by simp [printVal])
    | succ f => rfl
  | PyVal.dict ((k, v) :: kvs), lvl, fuel, rest, hg, hf, _ => by
    cases fuel with
    | zero => exact absurd hf (by simp)
    | succ f =>
      have hgall : ∀ kv ∈ (k, v) :: kvs, JGood kv.2 := by
        cases hg with
        | dict kvs h => exact h
      have hshape : printVal lvl (PyVal.dict ((k, v) :: kvs)) ++ rest
          = lcurly :: '\n' :: (indChars (lvl + 1)
            ++ (strLit k ++ ':' :: ' ' :: (printVal (lvl + 1) v
              ++ (printMembersRest (lvl + 1) kvs
                ++ '\n' :: (indChars lvl ++ (rcurly :: rest)))))) := by
        show (lcurly :: '\n' :: (indChars (lvl + 1) ++ strLit k
          ++ ':' :: ' ' :: (printVal (lvl + 1) v ++ printMembersRest (lvl + 1) kvs
            ++ '\n' :: (indChars lvl ++ [rcurly])))) ++ rest = _
        simp only [List.cons_append, List.append_assoc, List.singleton_append,
          List.nil_append]
      rw [hshape]
      rw [show parseJsonVal (f + 1) (lcurly :: '\n' :: (indChars (lvl + 1)
            ++ (strLit k ++ ':' :: ' ' :: (printVal (lvl + 1) v
              ++ (printMembersRest (lvl + 1) kvs
                ++ '\n' :: (indChars lvl ++ (rcurly :: rest)))))))
        = (match skipWs ('\n' :: (indChars (lvl + 1)
            ++ (strLit k ++ ':' :: ' ' :: (printVal (lvl + 1) v
              ++ (printMembersRest (lvl + 1) kvs
                ++ '\n' :: (indChars lvl ++ (rcurly :: rest))))))) with
          | c2 :: rest2 =>
            if c2 == rcurly then Except.ok (PyVal.dict [], rest2)
            else
              match parseJsonMembers f (c2 :: rest2) with
              | Except.ok p => Except.ok (PyVal.dict p.1, p.2)
              | Except.error e => Except.error e
          | [] => Except.error "Expecting property name") from rfl]
      rw [show skipWs ('\n' :: (indChars (lvl + 1)
            ++ (strLit k ++ ':' :: ' ' :: (printVal (lvl + 1) v
              ++ (printMembersRest (lvl + 1) kvs
                ++ '\n' :: (indChars lvl ++ (rcurly :: rest)))))))
        = skipWs (strLit k ++ ':' :: ' ' :: (printVal (lvl + 1) v
              ++ (printMembersRest (lvl + 1) kvs
                ++ '\n' :: (indChars lvl ++ (rcurly :: rest))))) from by
          rw [show ('\n' :: (indChars (lvl + 1)
              ++ (strLit k ++ ':' :: ' ' :: (printVal (lvl + 1) v
                ++ (printMembersRest (lvl + 1) kvs
                  ++ '\n' :: (indChars lvl ++ (rcurly :: rest)))))) : List Char)
            = ('\n' :: indChars (lvl + 1)) ++ (strLit k ++ ':' :: ' ' :: (printVal (lvl + 1) v
                ++ (printMembersRest (lvl + 1) kvs
                  ++ '\n' :: (indChars lvl ++ (rcurly :: rest))))) from rfl]
          exact skipWs_append_ws (nl_ind_ws (lvl + 1)) _]
      rw [show strLit k ++ ':' :: ' ' :: (printVal (lvl + 1) v
            ++ (printMembersRest (lvl + 1) kvs
              ++ '\n' :: (indChars lvl ++ (rcurly :: rest))))
        = quoteChar :: (escapeChars k.data ++ [quoteChar] ++ (':' :: ' ' :: (printVal (lvl + 1) v
            ++ (printMembersRest (lvl + 1) kvs
              ++ '\n' :: (indChars lvl ++ (rcurly :: rest)))))) from by
          show (quoteChar :: (escapeChars k.data ++ [quoteChar])) ++ _ = _
          rw [List.cons_append]]
      rw [skipWs_cons_not (by rfl)]
      rw [show (match quoteChar :: (escapeChars k.data ++ [quoteChar]
            ++ (':' :: ' ' :: (printVal (lvl + 1) v
              ++ (printMembersRest (lvl + 1) kvs
                ++ '\n' :: (indChars lvl ++ (rcurly :: rest)))))) with
          | c2 :: rest2 =>
            if c2 == rcurly then Except.ok (PyVal.dict [], rest2)
            else
              match parseJsonMembers f (c2 :: rest2) with
              | Except.ok p => Except.ok (PyVal.dict p.1, p.2)
              | Except.error e => Except.error e
          | [] => Except.error "Expecting property name")
        = (if quoteChar == rcurly then
            Except.ok (PyVal.dict [], escapeChars k.data ++ [quoteChar]
              ++ (':' :: ' ' :: (printVal (lvl + 1) v
                ++ (printMembersRest (lvl + 1) kvs
                  ++ '\n' :: (indChars lvl ++ (rcurly :: rest))))))
          else
            match parseJsonMembers f (quoteChar :: (escapeChars k.data ++ [quoteChar]
                ++ (':' :: ' ' :: (printVal (lvl + 1) v
                  ++ (printMembersRest (lvl + 1) kvs
                    ++ '\n' :: (indChars lvl ++ (rcurly :: rest))))))) with
            | Except.ok p => Except.ok (PyVal.dict p.1, p.2)
            | Except.error e => Except.error e) from rfl]
      rw [if_neg (by decide)]
      have hlen : (strLit k ++ (printVal (lvl + 1) v
          ++ printMembersRest (lvl + 1) kvs)).length + 1 < f := by
        have : (printVal lvl (PyVal.dict ((k, v) :: kvs))).length < f + 1 := hf
        rw [show printVal lvl (PyVal.dict ((k, v) :: kvs))
          = lcurly :: '\n' :: (indChars (lvl + 1) ++ strLit k
            ++ ':' :: ' ' :: (printVal (lvl + 1) v ++ printMembersRest (lvl + 1) kvs
              ++ '\n' :: (indChars lvl ++ [rcurly]))) from rfl] at this
        simp only [List.length_cons, List.length_append] at this ⊢
        omega
      have key := rtJson_members k v kvs (lvl + 1) lvl f ([] : List Char) rest
        (by intro c hc; exact absurd hc (List.not_mem_nil c)) hgall hlen
      rw [List.nil_append] at key
      rw [show (quoteChar :: (escapeChars k.data ++ [quoteChar] ++ (':' :: ' '
          :: (printVal (lvl + 1) v ++ (printMembersRest (lvl + 1) kvs
            ++ '\n' :: (indChars lvl ++ (rcurly :: rest)))))) : List Char)
        = strLit k ++ ':' :: ' ' :: (printVal (lvl + 1) v
            ++ (printMembersRest (lvl + 1) kvs
              ++ '\n' :: (indChars lvl ++ (rcurly :: rest)))) from by
          show _ = (quoteChar :: (escapeChars k.data ++ [quoteChar])) ++ _
          rw [List.cons_append]]
      rw [key]
  termination_by v _ _ _ _ _ _ => sizeOf v

theorem rtJson_elems : ∀ (x : PyVal) (xs : List PyVal) (elvl clvl fuel : Nat)
    (pre rest : List Char),
    (∀ c ∈ pre, isJsonWs c = true) →
    (∀ y ∈ x :: xs, JGood y) →
    (printVal elvl x ++ printElemsRest elvl xs).length + 1 < fuel →
    parseJsonElems fuel
      (pre ++ (printVal elvl x ++ (printElemsRest elvl xs
        ++ '\n' :: (indChars clvl ++ (']' :: rest)))))
      = Except.ok (x :: xs, rest)
  | x, xs, elvl, clvl, fuel, pre, rest, hpre, hg, hf => by
    cases fuel with
    | zero => exact absurd hf (by simp)
    | succ f =>
      cases f with
      | zero =>
        exfalso
        have := printVal_length_pos elvl (hg x (List.mem_cons_self x xs))
        simp only [List.length_append] at hf
        omega
      | succ f' =>
        rw [show parseJsonElems (f' + 1 + 1) (pre ++ (printVal elvl x
              ++ (printElemsRest elvl xs ++ '\n' :: (indChars clvl ++ (']' :: rest)))))
          = (match parseJsonVal (f' + 1) (pre ++ (printVal elvl x
              ++ (printElemsRest elvl xs ++ '\n' :: (indChars clvl ++ (']' :: rest))))) with
            | Except.error e => Except.error e
            | Except.ok (v, r) =>
              match skipWs r with
              | ',' :: r2 =>
                match parseJsonElems (f' + 1) r2 with
                | Except.ok p => Except.ok (v :: p.1, p.2)
                | Except.error e => Except.error e
              | ']' :: r2 => Except.ok ([v], r2)
              | _ => Except.error "Expecting comma") from rfl]
        rw [parseJsonVal_wsPre f' hpre]
        have hdelim : jsonNumDelim (printElemsRest elvl xs
            ++ '\n' :: (indChars clvl ++ (']' :: rest))) = true := by
          cases xs with
          | nil => rfl
          | cons y ys => rfl
        have hfx : (printVal elvl x).length < f' + 1 := by
          simp only [List.length_append] at hf
          omega
        rw [rtJson_val x elvl (f' + 1)
          (printElemsRest elvl xs ++ '\n' :: (indChars clvl ++ (']' :: rest)))
          (hg x (List.mem_cons_self x xs)) hfx hdelim]
        cases xs with
        | nil =>
          show (match skipWs ('\n' :: (indChars clvl ++ (']' :: rest))) with
            | ',' :: r2 =>
              match parseJsonElems (f' + 1) r2 with
              | Except.ok p => Except.ok (x :: p.1, p.2)
              | Except.error e => Except.error e
            | ']' :: r2 => Except.ok ([x], r2)
            | _ => Except.error "Expecting comma") = Except.ok ([x], rest)
          rw [show ('\n' :: (indChars clvl ++ (']' :: rest)) : List Char)
            = ('\n' :: indChars clvl) ++ (']' :: rest) from rfl]
          rw [skipWs_append_ws (nl_ind_ws clvl), skipWs_cons_not (by rfl)]
          exact rfl
        | cons y ys =>
          show (match skipWs (',' :: '\n' :: (indChars elvl ++ printVal elvl y
              ++ printElemsRest elvl ys ++ '\n' :: (indChars clvl ++ (']' :: rest)))) with
            | ',' :: r2 =>
              match parseJsonElems (f' + 1) r2 with
              | Except.ok p => Except.ok (x :: p.1, p.2)
              | Except.error e => Except.error e
            | ']' :: r2 => Except.ok ([x], r2)
            | _ => Except.error "Expecting comma") = Except.ok (x :: y :: ys, rest)
          rw [skipWs_cons_not (by rfl)]
          have hlen2 : (printVal elvl y ++ printElemsRest elvl ys).length + 1 < f' + 1 := by
            rw [show printElemsRest elvl (y :: ys)
              = ',' :: '\n' :: (indChars elvl ++ printVal elvl y ++ printElemsRest elvl ys)
              from rfl] at hf
            simp only [List.length_append, List.length_cons] at hf ⊢
            omega
          have key := rtJson_elems y ys elvl clvl (f' + 1) ('\n' :: indChars elvl) rest
            (nl_ind_ws elvl) (fun z hz => hg z (List.mem_cons_of_mem x hz)) hlen2
          simp only []
          rw [List.cons_append] at key
          simp only [List.append_assoc] at key ⊢
          rw [key]
  termination_by x xs _ _ _ _ _ _ _ _ => sizeOf x + sizeOf xs + 1

theorem rtJson_members : ∀ (k : String) (v : PyVal) (kvs : List (String × PyVal))
    (elvl clvl fuel : Nat) (pre rest : List Char),
    (∀ c ∈ pre, isJsonWs c = true) →
    (∀ kv ∈ (k, v) :: kvs, JGood kv.2) →
    (strLit k ++ (printVal elvl v ++ printMembersRest elvl kvs)).length + 1 < fuel →
    parseJsonMembers fuel
      (pre ++ (strLit k ++ ':' :: ' ' :: (printVal elvl v ++ (printMembersRest elvl kvs
        ++ '\n' :: (indChars clvl ++ (rcurly :: rest))))))
      = Except.ok ((k, v) :: kvs, rest)
  | k, v, [], elvl, clvl, fuel, pre, rest, hpre, hg, hf => by
    cases fuel with
    | zero => exact absurd hf (by simp)
    | succ f =>
      cases f with
      | zero =>
        exfalso
        simp only [List.length_append, strLit, List.length_cons] at hf
        omega
      | succ f' =>
        rw [parseJsonMembers_wsPre (f' + 1) hpre]
        rw [show strLit k ++ ':' :: ' ' :: (printVal elvl v
              ++ (printMembersRest elvl ([] : List (String × PyVal))
                ++ '\n' :: (indChars clvl ++ (rcurly :: rest))))
          = quoteChar :: (escapeChars k.data ++ quoteChar :: (':' :: ' '
            :: (printVal elvl v ++ '\n' :: (indChars clvl ++ (rcurly :: rest))))) from by
            show (quoteChar :: (escapeChars k.data ++ [quoteChar])) ++ _ = _
            simp only [printMembersRest, List.cons_append, List.append_assoc,
              List.singleton_append, List.nil_append]]
        rw [parseJsonMembers_quote (f' + 1)]
        rw [parseStrBody_escapeChars]
        show (match parseJsonVal (f' + 1) (' ' :: (printVal elvl v
            ++ '\n' :: (indChars clvl ++ (rcurly :: rest)))) with
          | Except.ok vr =>
            (match skipWs vr.2 with
            | ',' :: r4 =>
              (match parseJsonMembers (f' + 1) r4 with
              | Except.ok q => Except.ok ((k, vr.1) :: q.1, q.2)
              | Except.error e => Except.error e)
            | c5 :: r4 =>
              if c5 == rcurly then Except.ok ([(k, vr.1)], r4)
              else Except.error "Expecting comma"
            | [] => Except.error "Expecting comma")
          | Except.error e => Except.error e) = Except.ok ([(k, v)], rest)
        rw [show parseJsonVal (f' + 1) (' ' :: (printVal elvl v
              ++ '\n' :: (indChars clvl ++ (rcurly :: rest))))
          = parseJsonVal (f' + 1) (printVal elvl v
              ++ '\n' :: (indChars clvl ++ (rcurly :: rest))) from by
            rw [show (' ' :: (printVal elvl v
                ++ '\n' :: (indChars clvl ++ (rcurly :: rest))) : List Char)
              = [' '] ++ (printVal elvl v
                ++ '\n' :: (indChars clvl ++ (rcurly :: rest))) from rfl]
            exact parseJsonVal_wsPre f'
              (by intro c hc; rw [List.mem_singleton] at hc; subst hc; rfl) _]
        have hfv : (printVal elvl v).length < f' + 1 := by
          simp only [List.length_append] at hf
          omega
        rw [rtJson_val v elvl (f' + 1) ('\n' :: (indChars clvl ++ (rcurly :: rest)))
          (hg (k, v) (List.mem_cons_self (k, v) [])) hfv rfl]
        show (match skipWs ('\n' :: (indChars clvl ++ (rcurly :: rest))) with
          | ',' :: r4 =>
            (match parseJsonMembers (f' + 1) r4 with
            | Except.ok q => Except.ok ((k, v) :: q.1, q.2)
            | Except.error e => Except.error e)
          | c5 :: r4 =>
            if c5 == rcurly then Except.ok ([(k, v)], r4)
            else Except.error "Expecting comma"
          | [] => Except.error "Expecting comma") = Except.ok ([(k, v)], rest)
        rw [show ('\n' :: (indChars clvl ++ (rcurly :: rest)) : List Char)
          = ('\n' :: indChars clvl) ++ (rcurly :: rest) from rfl]
        rw [skipWs_append_ws (nl_ind_ws clvl), skipWs_cons_not (by rfl)]
        exact rfl
  | k, v, (k2, v2) :: kvs2, elvl, clvl, fuel, pre, rest, hpre, hg, hf => by
    cases fuel with
    | zero => exact absurd hf (by simp)
    | succ f =>
      cases f with
      | zero =>
        exfalso
        simp only [List.length_append, strLit, List.length_cons] at hf
        omega
      | succ f' =>
        rw [parseJsonMembers_wsPre (f' + 1) hpre]
        rw [show strLit k ++ ':' :: ' ' :: (printVal elvl v
              ++ (printMembersRest elvl ((k2, v2) :: kvs2)
                ++ '\n' :: (indChars clvl ++ (rcurly :: rest))))
          = quoteChar :: (escapeChars k.data ++ quoteChar :: (':' :: ' '
            :: (printVal elvl v ++ (printMembersRest elvl ((k2, v2) :: kvs2)
              ++ '\n' :: (indChars clvl ++ (rcurly :: rest)))))) from by
            show (quoteChar :: (escapeChars k.data ++ [quoteChar])) ++ _ = _
            simp only [List.cons_append, List.append_assoc, List.singleton_append,
              List.nil_append]]
        rw [parseJsonMembers_quote (f' + 1)]
        rw [parseStrBody_escapeChars]
        show (match parseJsonVal (f' + 1) (' ' :: (printVal elvl v
            ++ (printMembersRest elvl ((k2, v2) :: kvs2)
              ++ '\n' :: (indChars clvl ++ (rcurly :: rest))))) with
          | Except.ok vr =>
            (match skipWs vr.2 with
            | ',' :: r4 =>
              (match parseJsonMembers (f' + 1) r4 with
              | Except.ok q => Except.ok ((k, vr.1) :: q.1, q.2)
              | Except.error e => Except.error e)
            | c5 :: r4 =>
              if c5 == rcurly then Except.ok ([(k, vr.1)], r4)
              else Except.error "Expecting comma"
            | [] => Except.error "Expecting comma")
          | Except.error e => Except.error e)
          = Except.ok ((k, v) :: (k2, v2) :: kvs2, rest)
        rw [show parseJsonVal (f' + 1) (' ' :: (printVal elvl v
              ++ (printMembersRest elvl ((k2, v2) :: kvs2)
                ++ '\n' :: (indChars clvl ++ (rcurly :: rest)))))
          = parseJsonVal (f' + 1) (printVal elvl v
              ++ (printMembersRest elvl ((k2, v2) :: kvs2)
                ++ '\n' :: (indChars clvl ++ (rcurly :: rest)))) from by
            rw [show (' ' :: (printVal elvl v ++ (printMembersRest elvl ((k2, v2) :: kvs2)
                ++ '\n' :: (indChars clvl ++ (rcurly :: rest)))) : List Char)
              = [' '] ++ (printVal elvl v ++ (printMembersRest elvl ((k2, v2) :: kvs2)
                ++ '\n' :: (indChars clvl ++ (rcurly :: rest)))) from rfl]
            exact parseJsonVal_wsPre f'
              (by intro c hc; rw [List.mem_singleton] at hc; subst hc; rfl) _]
        have hfv : (printVal elvl v).length < f' + 1 := by
          simp only [List.length_append] at hf
          omega
        rw [rtJson_val v elvl (f' + 1)
          (printMembersRest elvl ((k2, v2) :: kvs2)
            ++ '\n' :: (indChars clvl ++ (rcurly :: rest)))
          (hg (k, v) (List.mem_cons_self (k, v) ((k2, v2) :: kvs2))) hfv rfl]
        show (match skipWs (printMembersRest elvl ((k2, v2) :: kvs2)
            ++ '\n' :: (indChars clvl ++ (rcurly :: rest))) with
          | ',' :: r4 =>
            (match parseJsonMembers (f' + 1) r4 with
            | Except.ok q => Except.ok ((k, v) :: q.1, q.2)
            | Except.error e => Except.error e)
          | c5 :: r4 =>
            if c5 == rcurly then Except.ok ([(k, v)], r4)
            else Except.error "Expecting comma"
          | [] => Except.error "Expecting comma")
          = Except.ok ((k, v) :: (k2, v2) :: kvs2, rest)
        rw [show (printMembersRest elvl ((k2, v2) :: kvs2)
            ++ '\n' :: (indChars clvl ++ (rcurly :: rest)) : List Char)
          = ',' :: (('\n' :: indChars elvl) ++ (strLit k2 ++ ':' :: ' '
            :: (printVal elvl v2 ++ (printMembersRest elvl kvs2
              ++ '\n' :: (indChars clvl ++ (rcurly :: rest)))))) from by
            show (',' :: '\n' :: (indChars elvl ++ strLit k2 ++ ':' :: ' '
              :: (printVal elvl v2 ++ printMembersRest elvl kvs2)))
              ++ '\n' :: (indChars clvl ++ (rcurly :: rest)) = _
            simp only [List.cons_append, List.append_assoc, List.nil_append]]
        rw [skipWs_cons_not (by rfl)]
        have hlen2 : (strLit k2 ++ (printVal elvl v2
            ++ printMembersRest elvl kvs2)).length + 1 < f' + 1 := by
          rw [show printMembersRest elvl ((k2, v2) :: kvs2)
            = ',' :: '\n' :: (indChars elvl ++ strLit k2
              ++ ':' :: ' ' :: (printVal elvl v2 ++ printMembersRest elvl kvs2)) from rfl] at hf
          simp only [List.length_append, List.length_cons] at hf ⊢
          omega
        have key := rtJson_members k2 v2 kvs2 elvl clvl (f' + 1) ('\n' :: indChars elvl) rest
          (nl_ind_ws elvl) (fun z hz => hg z (List.mem_cons_of_mem (k, v) hz)) hlen2
        show (match parseJsonMembers (f' + 1) (('\n' :: indChars elvl) ++ (strLit k2
            ++ ':' :: ' ' :: (printVal elvl v2 ++ (printMembersRest elvl kvs2
              ++ '\n' :: (indChars clvl ++ (rcurly :: rest)))))) with
          | Except.ok q => Except.ok ((k, v) :: q.1, q.2)
          | Except.error e => Except.error e) = Except.ok ((k, v) :: (k2, v2) :: kvs2, rest)
        rw [key]
  termination_by _ v kvs _ _ _ _ _ _ _ _ => sizeOf v + sizeOf kvs + 1

end

/-- Full-document JSON round trip: decoding the encoder's output returns the
original value. -/
theorem from_json_to_json {v : PyVal} (hg : JGood v) :
    _from_json (_to_json v) = Except.ok v := by
  have h := rtJson_val v 0 ((printVal 0 v).length + 1) [] hg (by omega) rfl
  rw [List.append_nil] at h
  show (match parseJsonVal ((printVal 0 v).length + 1) (printVal 0 v) with
    | Except.error e => Except.error e
    | Except.ok (w, r) =>
      if (skipWs r).isEmpty then Except.ok w else Except.error "Extra data")
    = Except.ok v
  rw [h]
  exact rfl

/-- The dict encoding of a recipe document is `JGood` whenever every amount is
a decimal rational. -/
theorem JGood_toPyVal {d : RecipeDoc}
    (h : ∀ ing ∈ d.ingredients, DecimalRat ing.amount) : JGood d.toPyVal := by
  refine JGood.dict _ ?_
  intro kv hkv
  simp only [RecipeDoc.toPyVal, List.mem_cons, List.not_mem_nil, or_false] at hkv
  rcases hkv with rfl | rfl | rfl | rfl
  · exact JGood.str _
  · exact JGood.int _
  · refine JGood.list _ ?_
    intro x hx
    obtain ⟨ing, hing, rfl⟩ := List.mem_map.mp hx
    refine JGood.dict _ ?_
    intro kv2 hkv2
    simp only [Ingredient.toPyVal, List.mem_cons, List.not_mem_nil, or_false] at hkv2
    rcases hkv2 with rfl | rfl | rfl
    · exact JGood.str _
    · exact JGood.str _
    · exact JGood.float _ (h ing hing)
  · refine JGood.list _ ?_
    intro x hx
    obtain ⟨s, hs, rfl⟩ := List.mem_map.mp hx
    exact JGood.str _

theorem storeHas_storeRemove (dir : List (String × RawUpload)) (n : String) :
    storeHas (storeRemove dir n) n = false := by
  induction dir with
  | nil => rfl
  | cons kv rest ih =>
    by_cases h : kv.1 == n
    · simpa [storeRemove, List.filter, h] using ih
    · simpa [storeRemove, List.filter, h, storeHas] using ih

/-- C1: the spec requires the validator to reject an empty `steps` list, but
`not all(isinstance(s, str) and s.strip() for s in steps)` is `False` for
`steps == []` (`all([])` is `True`), so a mapping whose `steps` field is the
empty list and whose other fields are valid is accepted — and the accepted
value's `steps` list is empty.  This contradicts both the rejection sentence
and the general invariant, on the same concrete input. -/
theorem claim_C1_empty_steps_accepted :
    _validate_recipe_dict (PyVal.dict c1Kvs) = Except.ok (PyVal.dict c1Kvs)
    ∧ dictGet c1Kvs "steps" = some (PyVal.list []) :=
  ⟨rfl, rfl⟩

/-- C2 counterexample: the claim quantifies over *every* accepted document,
but `_from_xml` strips the decoded title (and names/units/steps), so an
accepted document with a leading space in its title does not round-trip:
`_from_xml(_to_xml(d))` returns the stripped variant, not `d`. -/
theorem claim_C2_counterexample :
    (_validate_recipe_dict c2Doc.toPyVal).isOk = true
    ∧ _from_xml (some (_to_xml c2Doc)) ≠ Except.ok c2Doc.toPyVal := by
  refine ⟨rfl, ?_⟩
  have hdec2 : _from_xml (some (_to_xml c2Doc))
      = Except.ok (PyVal.dict
        [("title", PyVal.str "A"), ("servings", PyVal.int 1),
         ("ingredients", PyVal.list [PyVal.dict
           [("name", PyVal.str "Sugar"), ("unit", PyVal.str "g"),
            ("amount", PyVal.float 1)]]),
         ("steps", PyVal.list [PyVal.str "Mix"])]) := rfl
  rw [hdec2]
  intro h
  injection h with h1
  injection h1 with h2
  injection h2 with h3 h4
  injection h3 with h5 h6
  injection h6 with h7
  exact absurd h7 (by decide)

/-- C2 (amended): the XML round trip holds, in both the plain and the
`","`-substituted form, for every accepted document that is invariant under
the decoder's stripping (no surrounding whitespace on title, ingredient
names, units, or steps) and whose amounts are decimal rationals (the image
of Python floats). -/
theorem claim_C2_xml_roundtrip (d : RecipeDoc)
    (hacc : (_validate_recipe_dict d.toPyVal).isOk = true)
    (htitle : pyStrip d.title = d.title)
    (hing : ∀ ing ∈ d.ingredients, pyStrip ing.name = ing.name ∧ pyStrip ing.unit = ing.unit)
    (hsteptrim : ∀ s ∈ d.steps, pyStrip s = s)
    (hdec : ∀ ing ∈ d.ingredients, DecimalRat ing.amount) :
    _from_xml (some (_to_xml d)) = Except.ok d.toPyVal
    ∧ _from_xml (some (commaVariant (_to_xml d))) = Except.ok d.toPyVal :=
  xml_roundtrip_trim_invariant d hacc htitle hing hsteptrim hdec

theorem claim_C2_xml_roundtrip_witness :
    (_validate_recipe_dict (RecipeDoc.mk "A" 1 [Ingredient.mk "Sugar" 1 "g"] ["Mix"]).toPyVal).isOk
      = true
    ∧ _from_xml (some (_to_xml (RecipeDoc.mk "A" 1 [Ingredient.mk "Sugar" 1 "g"] ["Mix"])))
      = Except.ok (RecipeDoc.mk "A" 1 [Ingredient.mk "Sugar" 1 "g"] ["Mix"]).toPyVal :=
  ⟨by rfl,
   (claim_C2_xml_roundtrip (RecipeDoc.mk "A" 1 [Ingredient.mk "Sugar" 1 "g"] ["Mix"])
     (by rfl)
     (by rfl)
     (by intro ing hi
         rw [List.mem_singleton] at hi
         subst hi
         exact ⟨rfl, rfl⟩)
     (by intro s hs
         rw [List.mem_singleton] at hs
         subst hs
         rfl)
     (by intro ing hi
         rw [List.mem_singleton] at hi
         subst hi
         decide)).1⟩

/-- C3: JSON round trip.  For every document accepted by the validator whose
amounts are decimal rationals (the image of Python floats, which are dyadic
and hence decimal), decoding the encoder's output reproduces the document's
dictionary exactly. -/
theorem claim_C3_json_roundtrip (d : RecipeDoc)
    (hacc : (_validate_recipe_dict d.toPyVal).isOk = true)
    (hdec : ∀ ing ∈ d.ingredients, DecimalRat ing.amount) :
    _from_json (_to_json d.toPyVal) = Except.ok d.toPyVal :=
  from_json_to_json (JGood_toPyVal hdec)

theorem claim_C3_json_roundtrip_witness :
    (_validate_recipe_dict
        (RecipeDoc.mk "B" 2 [Ingredient.mk "Salt" (mkRat 3 2) "g"] ["Stir"]).toPyVal).isOk = true
    ∧ _from_json (_to_json (RecipeDoc.mk "B" 2 [Ingredient.mk "Salt" (mkRat 3 2) "g"] ["Stir"]).toPyVal)
      = Except.ok (RecipeDoc.mk "B" 2 [Ingredient.mk "Salt" (mkRat 3 2) "g"] ["Stir"]).toPyVal :=
  ⟨by rfl,
   claim_C3_json_roundtrip (RecipeDoc.mk "B" 2 [Ingredient.mk "Salt" (mkRat 3 2) "g"] ["Stir"])
     (by rfl)
     (by intro ing hi
         rw [List.mem_singleton] at hi
         subst hi
         decide)⟩

/-- C4 counterexample: the claim says decode fails *only* for malformed
bytes, a non-`recipe` root, missing `<ingredients>`, or missing `<steps>`;
but `_from_xml` also raises when the (stripped, defaulted) servings text
does not parse as a number — e.g. on a well-formed `recipe` document with
both required elements but no `<servings>`, where `float("")` raises. -/
theorem claim_C4_counterexample :
    c4Root.tag = "recipe"
    ∧ (findChild c4Root "ingredients").isSome = true
    ∧ (findChild c4Root "steps").isSome = true
    ∧ _from_xml (some c4Root) = Except.error "servings в XML должен быть числом." :=
  ⟨rfl, rfl, rfl, rfl⟩

/-- C4 (amended): the exact success domain of `_from_xml`.  Decode succeeds
iff the bytes are well-formed, the root is named `recipe`, the servings text
parses as a number, `<ingredients>` is present with every `item` amount
parsing as a number, and `<steps>` is present; so it also fails on
unparseable servings or amount text, not only in the four listed cases. -/
theorem claim_C4_xml_decode_domain (x : Option Element) :
    (_from_xml x).isOk = xmlDecodeOk x :=
  from_xml_isOk_eq x

/-- C5 counterexample: the validator is claimed to leave its input unchanged,
but line 156 executes `data["servings"] = int(servings)`: on an accepted
mapping whose `servings` is the float `5/2`, the mapping ends up with
`servings` equal to the *int* `2` — both the value and the type change. -/
theorem claim_C5_counterexample :
    _validate_recipe_dict (PyVal.dict c5Kvs)
      = Except.ok (PyVal.dict (dictSet c5Kvs "servings" (PyVal.int 2)))
    ∧ dictGet c5Kvs "servings" = some (PyVal.float (mkRat 5 2))
    ∧ dictGet (dictSet c5Kvs "servings" (PyVal.int 2)) "servings" = some (PyVal.int 2) :=
  ⟨rfl, rfl, rfl⟩

/-- C5 (amended): on every accepted mapping the validator returns the input
with its `servings` entry overwritten by `int(servings)` — the only
mutation, and the returned value is the mutated mapping itself. -/
theorem claim_C5_servings_mutation (kvs : List (String × PyVal)) (v : PyVal)
    (h : _validate_recipe_dict (PyVal.dict kvs) = Except.ok v) :
    ∃ servings, dictGet kvs "servings" = some servings
      ∧ v = PyVal.dict (dictSet kvs "servings" (PyVal.int (pyToInt servings))) := by
  unfold _validate_recipe_dict at h
  simp only [] at h
  cases ht : dictGet kvs "title" with
  | none =>
    rw [ht] at h
    simp only [] at h
    exact absurd h (by simp)
  | some tv =>
    rw [ht] at h
    cases tv with
    | none => exact absurd h (by simp)
    | bool b => exact absurd h (by simp)
    | int n => exact absurd h (by simp)
    | float q => exact absurd h (by simp)
    | list l => exact absurd h (by simp)
    | dict kvs2 => exact absurd h (by simp)
    | str t =>
    simp only [] at h
    by_cases hlen : 1 ≤ t.data.length ∧ t.data.length ≤ 100
    case neg => rw [if_neg hlen] at h; exact absurd h (by simp)
    rw [if_pos hlen] at h
    cases hs : dictGet kvs "servings" with
    | none => rw [hs] at h; simp only [] at h; exact absurd h (by simp)
    | some servings =>
      rw [hs] at h
      simp only [] at h
      by_cases hnum : (pyIsNum servings && decide (1 ≤ pyToInt servings)) = true
      case neg => rw [if_neg hnum] at h; exact absurd h (by simp)
      rw [if_pos hnum] at h
      cases hi : dictGet kvs "ingredients" with
      | none => rw [hi] at h; simp only [] at h; exact absurd h (by simp)
      | some iv =>
        rw [hi] at h
        cases iv with
        | none => exact absurd h (by simp)
        | bool b => exact absurd h (by simp)
        | int n => exact absurd h (by simp)
        | float q => exact absurd h (by simp)
        | str s => exact absurd h (by simp)
        | dict kvs2 => exact absurd h (by simp)
        | list ings =>
        simp only [] at h
        by_cases hemp : ings.isEmpty = true
        case pos => rw [if_pos hemp] at h; exact absurd h (by simp)
        rw [if_neg hemp] at h
        cases hc : checkIngredients ings 1 with
        | error e => rw [hc] at h; simp only [] at h; exact absurd h (by simp)
        | ok u =>
          rw [hc] at h
          cases u
          simp only [] at h
          cases hst : dictGet kvs "steps" with
          | none => rw [hst] at h; simp only [] at h; exact absurd h (by simp)
          | some sv =>
            rw [hst] at h
            cases sv with
            | none => exact absurd h (by simp)
            | bool b => exact absurd h (by simp)
            | int n => exact absurd h (by simp)
            | float q => exact absurd h (by simp)
            | str s => exact absurd h (by simp)
            | dict kvs2 => exact absurd h (by simp)
            | list steps =>
            simp only [] at h
            by_cases hall : steps.all stepOk = true
            case neg => rw [if_neg hall] at h; exact absurd h (by simp)
            rw [if_pos hall] at h
            injection h with h1
            exact ⟨servings, rfl, h1.symm⟩

theorem claim_C5_servings_mutation_witness :
    _validate_recipe_dict (PyVal.dict c5Kvs)
      = Except.ok (PyVal.dict (dictSet c5Kvs "servings" (PyVal.int 2)))
    ∧ ∃ servings, dictGet c5Kvs "servings" = some servings
      ∧ PyVal.dict (dictSet c5Kvs "servings" (PyVal.int 2))
        = PyVal.dict (dictSet c5Kvs "servings" (PyVal.int (pyToInt servings))) :=
  ⟨by rfl, claim_C5_servings_mutation c5Kvs
    (PyVal.dict (dictSet c5Kvs "servings" (PyVal.int 2))) (by rfl)⟩

/-- C6: the lenient XML decode behaviours.  (1) On a concrete document,
`"2.0"` servings decode to the integer `2` and the `","` amount `"1,5"` to
the rational `3/2`, while a non-`item` child of `<ingredients>`, an
all-whitespace `<step>` and a non-`step` child of `<steps>` are silently
dropped.  (2)–(4) The skips hold for every child list (the non-`item` skip
still advances the 1-based counter, matching `enumerate`).  (5)–(6) A
missing `<title>`/`<servings>` child defaults its text to the empty string
before stripping and parsing. -/
theorem claim_C6_xml_lenient :
    (_from_xml (some c6Root) = Except.ok c6Expected)
    ∧ (∀ (e : Element) (rest : List Element) (i : Nat), (e.tag == "item") = false →
        parseItems (e :: rest) i = parseItems rest (i + 1))
    ∧ (∀ (st : Element) (rest : List Element), (st.tag == "step") = false →
        parseSteps (st :: rest) = parseSteps rest)
    ∧ (∀ (st : Element) (rest : List Element), (st.tag == "step") = true →
        (pyStrip st.textD).data.isEmpty = true → parseSteps (st :: rest) = parseSteps rest)
    ∧ (∀ root : Element, findChild root "title" = Option.none →
        findtextD root "title" = "")
    ∧ (∀ root : Element, findChild root "servings" = Option.none →
        findtextD root "servings" = "") := by
  refine ⟨rfl, ?_, ?_, ?_, ?_, ?_⟩
  · intro e rest i he
    unfold parseItems
    rw [if_neg (by simp [he])]
    rw [← parseItems.eq_def]
  · intro st rest hst
    unfold parseSteps
    rw [if_neg (by simp [hst])]
    rw [← parseSteps.eq_def]
  · intro st rest hst hemp
    unfold parseSteps
    rw [if_pos hst, if_pos hemp]
    rw [← parseSteps.eq_def]
  · intro root hc
    unfold findtextD
    rw [hc]
  · intro root hc
    unfold findtextD
    rw [hc]

theorem claim_C6_xml_lenient_witness :
    parseItems [Element.mk "note" [] "" []] 3 = parseItems [] 4
    ∧ parseSteps [Element.mk "remark" [] "x" []] = parseSteps []
    ∧ parseSteps [Element.mk "step" [] "   " []] = parseSteps []
    ∧ findtextD (Element.mk "recipe" [] "" []) "title" = ""
    ∧ findtextD (Element.mk "recipe" [] "" []) "servings" = "" :=
  ⟨claim_C6_xml_lenient.2.1 (Element.mk "note" [] "" []) [] 3 (by rfl),
   claim_C6_xml_lenient.2.2.1 (Element.mk "remark" [] "x" []) [] (by rfl),
   claim_C6_xml_lenient.2.2.2.1 (Element.mk "step" [] "   " []) [] (by rfl) (by rfl),
   claim_C6_xml_lenient.2.2.2.2.1 (Element.mk "recipe" [] "" []) (by rfl),
   claim_C6_xml_lenient.2.2.2.2.2 (Element.mk "recipe" [] "" []) (by rfl)⟩

/-- C7 counterexample: the spec says only names of the exact form
`recipe-<random-hex-identifier>.<ext>` are accepted, but `_read_file` checks
only the `recipe-` prefix and the `.<ext>` suffix, so a name whose middle is
not a hex identifier (`recipe-zzz.json`) passes the filter and is read from
the store. -/
theorem claim_C7_counterexample :
    safeNameForm "json" "recipe-zzz.json" = false
    ∧ _read_file "json" "recipe-zzz.json" [("recipe-zzz.json", "data")]
      = Except.ok "data" :=
  ⟨by rfl, by rfl⟩

/-- C7 (amended): `_read_file` rejects a name as invalid exactly when it
fails the prefix/suffix filter `startswith("recipe-") && endswith(suffix)`
(weaker than the spec's full `recipe-<hex>.<ext>` shape); a rejected name
gives the same result for every directory state (nothing is read from
disk), and the spec's two cited examples are indeed rejected. -/
theorem claim_C7_read_name_filter (fmt fname : String)
    (dir dir2 : List (String × String)) :
    (_read_file fmt fname dir = Except.error "Некорректное имя файла."
      ↔ readNameOk fmt fname = false)
    ∧ (readNameOk fmt fname = false →
        _read_file fmt fname dir = _read_file fmt fname dir2)
    ∧ readNameOk "json" "../../etc/passwd.json" = false
    ∧ readNameOk "xml" "recipe-0a1b2c.json" = false := by
  refine ⟨?_, ?_, by rfl, by rfl⟩
  · unfold _read_file
    by_cases h : readNameOk fmt fname
    · rw [if_neg (by simp [h])]
      constructor
      · intro hcontr
        cases hfind : List.find? (fun kv => kv.1 == fname) dir with
        | none =>
          rw [hfind] at hcontr
          simp only [] at hcontr
          exact absurd (Except.error.inj hcontr) (by decide)
        | some kv =>
          rw [hfind] at hcontr
          exact absurd hcontr (by simp)
      · intro hcontr
        exact absurd h (by simp [hcontr])
    · rw [if_pos (by simp [Bool.eq_false_iff.mpr h])]
      simp [Bool.eq_false_iff, h]
  · intro h
    unfold _read_file
    rw [if_pos (by simp [h]), if_pos (by simp [h])]

theorem claim_C7_read_name_filter_witness :
    readNameOk "xml" "recipe-0a1b2c33.json" = false
    ∧ _read_file "xml" "recipe-0a1b2c33.json" [("recipe-0a1b2c33.json", "x")]
      = _read_file "xml" "recipe-0a1b2c33.json" [] :=
  ⟨by rfl,
   (claim_C7_read_name_filter "xml" "recipe-0a1b2c33.json"
     [("recipe-0a1b2c33.json", "x")] []).2.1 (by rfl)⟩

/-- C8: upload rejection cleanup.  Whenever the decode-then-validate pipeline
of `upload_file` fails on the written content, the generated name is removed
from the directory before the error is reported: the final directory state
contains no file under that name. -/
theorem claim_C8_upload_cleanup (up : RawUpload) (name : String)
    (dir : List (String × RawUpload))
    (h : (uploadCore up name dir).1.isOk = false) :
    storeHas (uploadCore up name dir).2 name = false := by
  unfold uploadCore at h ⊢
  generalize hg : decodeUpload up = r at h ⊢
  cases r with
  | error e => exact storeHas_storeRemove _ _
  | ok d =>
    simp only [] at h ⊢
    generalize hv : _validate_recipe_dict d = rv at h ⊢
    cases rv with
    | error e => exact storeHas_storeRemove _ _
    | ok v => simp [Except.isOk, Except.toBool] at h

theorem claim_C8_upload_cleanup_witness :
    (uploadCore (RawUpload.jsonRaw "\x7b") "recipe-123.json" []).1.isOk = false
    ∧ storeHas (uploadCore (RawUpload.jsonRaw "\x7b") "recipe-123.json" []).2
        "recipe-123.json" = false :=
  ⟨by rfl, claim_C8_upload_cleanup (RawUpload.jsonRaw "\x7b") "recipe-123.json" [] (by rfl)⟩

theorem bool_and_true {a b : Bool} (h : (a && b) = true) : a = true ∧ b = true :=
  Bool.and_eq_true a b ▸ h

/-- C9: the validator's fixed check order and fast-fail behaviour.
(1) A non-mapping fails with the object error regardless of anything else.
(2) A bad title dominates every later violation.  (3) With a good title, a
bad servings entry dominates.  (4) With good title and servings, a missing,
non-list or empty `ingredients` field dominates.  (5) With those passing,
the first ingredient-element violation (as reported by the 1-based loop
started at index 1) is the reported error, dominating any `steps`
violation.  (6) The loop skips a passing element, incrementing the 1-based
counter.  (7) A failing element's message carries the loop counter `i`
(shown for the representative missing-`name` violation). -/
theorem claim_C9_validator_order :
    (∀ (v : PyVal), (∀ kvs, v ≠ PyVal.dict kvs) →
      _validate_recipe_dict v = Except.error "Ожидался объект рецепта.")
    ∧ (∀ kvs, titleOkB kvs = false →
      _validate_recipe_dict (PyVal.dict kvs)
        = Except.error "Поле 'title' должно быть строкой длиной 1..100.")
    ∧ (∀ kvs, titleOkB kvs = true → servingsOkB kvs = false →
      _validate_recipe_dict (PyVal.dict kvs)
        = Except.error "Поле 'servings' должно быть целым числом >= 1.")
    ∧ (∀ kvs, titleOkB kvs = true → servingsOkB kvs = true → ingFieldOkB kvs = false →
      _validate_recipe_dict (PyVal.dict kvs)
        = Except.error "Поле 'ingredients' должно быть непустым списком.")
    ∧ (∀ kvs l e, titleOkB kvs = true → servingsOkB kvs = true →
      dictGet kvs "ingredients" = some (PyVal.list l) → l.isEmpty = false →
      checkIngredients l 1 = Except.error e →
      _validate_recipe_dict (PyVal.dict kvs) = Except.error e)
    ∧ (∀ (ing : PyVal) (rest : List PyVal) (i : Nat), ingOkB ing = true →
      checkIngredients (ing :: rest) i = checkIngredients rest (i + 1))
    ∧ (∀ (rest : List PyVal) (i : Nat),
      checkIngredients (PyVal.dict [] :: rest) i
        = Except.error s!"Ингредиент #{i}: поле 'name' обязательно.") := by
  refine ⟨?_, ?_, ?_, ?_, ?_, ?_, ?_⟩
  · intro v hv
    cases v with
    | dict kvs => exact absurd rfl (hv kvs)
    | none => rfl
    | bool b => rfl
    | int n => rfl
    | float q => rfl
    | str s => rfl
    | list l => rfl
  · intro kvs h
    unfold _validate_recipe_dict
    simp only []
    unfold titleOkB at h
    generalize hg : dictGet kvs "title" = tv at h ⊢
    cases tv with
    | none => exact rfl
    | some tv2 =>
      cases tv2 with
      | str t =>
        simp only [] at h ⊢
        rw [if_neg (by
          intro hc
          rw [decide_eq_true hc.1, decide_eq_true hc.2] at h
          exact absurd h (by simp))]
      | none => exact rfl
      | bool b => exact rfl
      | int n => exact rfl
      | float q => exact rfl
      | list l => exact rfl
      | dict kvs2 => exact rfl
  · intro kvs h1 h2
    unfold _validate_recipe_dict
    simp only []
    unfold titleOkB at h1
    unfold servingsOkB at h2
    generalize hg : dictGet kvs "title" = tv at h1 ⊢
    cases tv with
    | none => exact Bool.noConfusion h1
    | some tv2 =>
      cases tv2 with
      | str t =>
        simp only [] at h1 ⊢
        have hp := bool_and_true h1
        rw [if_pos ⟨of_decide_eq_true hp.1, of_decide_eq_true hp.2⟩]
        generalize hs : dictGet kvs "servings" = sv at h2 ⊢
        cases sv with
        | none => exact rfl
        | some s =>
          simp only [] at h2 ⊢
          rw [if_neg (by simp [h2])]
      | none => exact Bool.noConfusion h1
      | bool b => exact Bool.noConfusion h1
      | int n => exact Bool.noConfusion h1
      | float q => exact Bool.noConfusion h1
      | list l => exact Bool.noConfusion h1
      | dict kvs2 => exact Bool.noConfusion h1
  · intro kvs h1 h2 h3
    unfold _validate_recipe_dict
    simp only []
    unfold titleOkB at h1
    unfold servingsOkB at h2
    unfold ingFieldOkB at h3
    generalize hg : dictGet kvs "title" = tv at h1 ⊢
    cases tv with
    | none => exact Bool.noConfusion h1
    | some tv2 =>
      cases tv2 with
      | str t =>
        simp only [] at h1 ⊢
        have hp := bool_and_true h1
        rw [if_pos ⟨of_decide_eq_true hp.1, of_decide_eq_true hp.2⟩]
        generalize hs : dictGet kvs "servings" = sv at h2 ⊢
        cases sv with
        | none => exact Bool.noConfusion h2
        | some s =>
          simp only [] at h2 ⊢
          rw [if_pos h2]
          generalize hi : dictGet kvs "ingredients" = iv at h3 ⊢
          cases iv with
          | none => exact rfl
          | some v2 =>
            cases v2 with
            | list l =>
              simp only [] at h3 ⊢
              rw [if_pos (by simpa using h3)]
            | none => exact rfl
            | bool b => exact rfl
            | int n => exact rfl
            | float q => exact rfl
            | str s2 => exact rfl
            | dict kvs2 => exact rfl
      | none => exact Bool.noConfusion h1
      | bool b => exact Bool.noConfusion h1
      | int n => exact Bool.noConfusion h1
      | float q => exact Bool.noConfusion h1
      | list l => exact Bool.noConfusion h1
      | dict kvs2 => exact Bool.noConfusion h1
  · intro kvs l e h1 h2 hil hemp hce
    unfold _validate_recipe_dict
    simp only []
    unfold titleOkB at h1
    unfold servingsOkB at h2
    generalize hg : dictGet kvs "title" = tv at h1 ⊢
    cases tv with
    | none => exact Bool.noConfusion h1
    | some tv2 =>
      cases tv2 with
      | str t =>
        simp only [] at h1 ⊢
        have hp := bool_and_true h1
        rw [if_pos ⟨of_decide_eq_true hp.1, of_decide_eq_true hp.2⟩]
        generalize hs : dictGet kvs "servings" = sv at h2 ⊢
        cases sv with
        | none => exact Bool.noConfusion h2
        | some s =>
          simp only [] at h2 ⊢
          rw [if_pos h2, hil]
          simp only []
          rw [if_neg (by simp [hemp]), hce]
      | none => exact Bool.noConfusion h1
      | bool b => exact Bool.noConfusion h1
      | int n => exact Bool.noConfusion h1
      | float q => exact Bool.noConfusion h1
      | list l2 => exact Bool.noConfusion h1
      | dict kvs2 => exact Bool.noConfusion h1
  · intro ing rest i h
    unfold ingOkB at h
    cases ing with
    | dict kvs2 =>
      simp only [] at h
      have hp := bool_and_true h
      have hn := bool_and_true hp.1
      unfold checkIngredients
      simp only []
      generalize hgn : dictGet kvs2 "name" = nv at hn ⊢
      cases nv with
      | none => exact Bool.noConfusion hn.1
      | some nv2 =>
        cases nv2 with
        | str n =>
          simp only [] at hn ⊢
          rw [if_neg (by
            intro hc
            rw [hc] at hn
            exact Bool.noConfusion hn.1)]
          generalize hga : pyFloat (dictGet kvs2 "amount") = av at hn ⊢
          cases av with
          | none => exact Bool.noConfusion hn.2
          | some a =>
            simp only [] at hn ⊢
            rw [if_neg (not_le.mpr (of_decide_eq_true hn.2))]
            generalize hgu : dictGet kvs2 "unit" = uv at hp ⊢
            cases uv with
            | none => exact Bool.noConfusion hp.2
            | some uv2 =>
              cases uv2 with
              | str u =>
                simp only [] at hp ⊢
                rw [if_neg (by
                  intro hc
                  rw [hc] at hp
                  exact Bool.noConfusion hp.2)]
                rw [← checkIngredients.eq_def]
              | none => exact Bool.noConfusion hp.2
              | bool b => exact Bool.noConfusion hp.2
              | int n2 => exact Bool.noConfusion hp.2
              | float q => exact Bool.noConfusion hp.2
              | list l2 => exact Bool.noConfusion hp.2
              | dict kvs3 => exact Bool.noConfusion hp.2
        | none => exact Bool.noConfusion hn.1
        | bool b => exact Bool.noConfusion hn.1
        | int n2 => exact Bool.noConfusion hn.1
        | float q => exact Bool.noConfusion hn.1
        | list l2 => exact Bool.noConfusion hn.1
        | dict kvs3 => exact Bool.noConfusion hn.1
    | none => exact Bool.noConfusion h
    | bool b => exact Bool.noConfusion h
    | int n => exact Bool.noConfusion h
    | float q => exact Bool.noConfusion h
    | str s => exact Bool.noConfusion h
    | list l => exact Bool.noConfusion h
  · intro rest i
    rfl

theorem claim_C9_validator_order_witness :
    titleOkB [("title", PyVal.str "T"), ("servings", PyVal.str "x"),
      ("steps", PyVal.list [])] = true
    ∧ servingsOkB [("title", PyVal.str "T"), ("servings", PyVal.str "x"),
      ("steps", PyVal.list [])] = false
    ∧ _validate_recipe_dict (PyVal.dict [("title", PyVal.str "T"),
        ("servings", PyVal.str "x"), ("steps", PyVal.list [])])
      = Except.error "Поле 'servings' должно быть целым числом >= 1."
    ∧ checkIngredients [PyVal.dict []] 5
      = Except.error "Ингредиент #5: поле 'name' обязательно." :=
  ⟨by rfl, by rfl,
   claim_C9_validator_order.2.2.1 [("title", PyVal.str "T"),
     ("servings", PyVal.str "x"), ("steps", PyVal.list [])] (by rfl) (by rfl),
   claim_C9_validator_order.2.2.2.2.2.2 [] 5⟩

/-- C10: the validator does not trim the title.  Any title of length 1..100
— in particular one consisting entirely of whitespace — is accepted with the
other fields valid, and the accepted document carries the title unchanged. -/
theorem claim_C10_title_whitespace (t : String)
    (hlen1 : 1 ≤ t.data.length) (hlen2 : t.data.length ≤ 100)
    (hws : ∀ c ∈ t.data, isPyWs c = true) :
    _validate_recipe_dict (RecipeDoc.mk t 1 [Ingredient.mk "Sugar" 1 "g"] ["Mix"]).toPyVal
      = Except.ok (RecipeDoc.mk t 1 [Ingredient.mk "Sugar" 1 "g"] ["Mix"]).toPyVal := by
  rw [validate_toPyVal_eq]
  rw [if_pos ⟨hlen1, hlen2⟩]
  exact rfl

theorem claim_C10_title_whitespace_witness :
    (1 ≤ "   ".data.length ∧ "   ".data.length ≤ 100)
    ∧ (∀ c ∈ "   ".data, isPyWs c = true)
    ∧ _validate_recipe_dict
        (RecipeDoc.mk "   " 1 [Ingredient.mk "Sugar" 1 "g"] ["Mix"]).toPyVal
      = Except.ok (RecipeDoc.mk "   " 1 [Ingredient.mk "Sugar" 1 "g"] ["Mix"]).toPyVal :=
  ⟨by decide, by decide,
   claim_C10_title_whitespace "   " (by decide) (by decide) (by decide)⟩

end Recipes
